/-
  Verification of the stacked-bar chart renderer (charts.py / formatting.py).

  Shallow embedding conventions:
  * Timestamps are modelled at hour granularity as `Int` (hours since a local
    midnight epoch; epoch day 0 is 1970-01-01, a Thursday).  The aggregator
    (stats.calculate_token_breakdown_time_series) truncates every key with
    `replace(minute=0, second=0, microsecond=0)`, so all keys the chart ever
    receives sit exactly on an hour boundary; at this granularity
    `start_time.replace(minute=0, ...)` is the identity and the
    `time.minute == 0` test of charts.py line 168 always holds.
  * Python `//` and `%` on ints are floor division and nonnegative remainder
    for positive divisors, exactly `/` and `%` on `Int` in Lean (Euclidean
    division agrees with floor division whenever the divisor is positive,
    and every divisor in this program is positive).
  * Python float arithmetic is modelled exactly by `Frac`, an unnormalized
    fraction of machine integers whose denominator is positive for every
    value the program builds; `toRat` maps it to `ℚ` for reasoning.
    `int(x)` is truncation toward zero (`pyint`), and the `.1f`/`.2f`
    formatters round to the nearest decimal, ties modelled half-to-even
    (`pyRound`).  A binary float is never exactly at a one-decimal tie, so
    the tie-breaking rule is unobservable on inputs that are float values.
  * Fallible operations (Python `/` raising ZeroDivisionError) are embedded
    with `Except Unit`; `print` calls are collected as the list of printed
    strings.
-/
import Mathlib

/-! ## Exact fraction arithmetic (model of Python float expressions) -/

/-- An unnormalized fraction.  Every fraction the embedded program builds has
a positive denominator (divisions by zero are trapped by `pydiv` or by the
source's own `max_value == min_value` guard before a fraction is formed). -/
structure Frac where
  num : Int
  den : Int

instance : OfNat Frac n := ⟨⟨n, 1⟩⟩

/-- Cast of a Python int (here: a natural count) into a float expression. -/
def natF (n : Nat) : Frac := ⟨n, 1⟩

/-- Cast of a Python int into a float expression. -/
def intF (i : Int) : Frac := ⟨i, 1⟩

def Frac.add (a b : Frac) : Frac := ⟨a.num * b.den + b.num * a.den, a.den * b.den⟩

def Frac.sub (a b : Frac) : Frac := ⟨a.num * b.den - b.num * a.den, a.den * b.den⟩

def Frac.mul (a b : Frac) : Frac := ⟨a.num * b.num, a.den * b.den⟩

/-- Division; the sign of the divisor is absorbed so that a positive
denominator stays positive whenever the divisor is nonzero. -/
def Frac.div (a b : Frac) : Frac :=
  if 0 ≤ b.num then ⟨a.num * b.den, a.den * b.num⟩
  else ⟨-(a.num * b.den), -(a.den * b.num)⟩

instance : Add Frac := ⟨Frac.add⟩
instance : Sub Frac := ⟨Frac.sub⟩
instance : Mul Frac := ⟨Frac.mul⟩
instance : Div Frac := ⟨Frac.div⟩

/-- `a < b` by cross multiplication (correct when both denominators are
positive, which holds for every comparison the program performs). -/
def Frac.lt (a b : Frac) : Prop := a.num * b.den < b.num * a.den

def Frac.le (a b : Frac) : Prop := a.num * b.den ≤ b.num * a.den

instance : LT Frac := ⟨Frac.lt⟩
instance : LE Frac := ⟨Frac.le⟩

instance (a b : Frac) : Decidable (a < b) := by
  unfold instLTFrac Frac.lt; infer_instance

instance (a b : Frac) : Decidable (a ≤ b) := by
  unfold instLEFrac Frac.le; infer_instance

/-- Interpretation into `ℚ`. -/
def Frac.toRat (a : Frac) : ℚ := (a.num : ℚ) / (a.den : ℚ)

/-- Mathematical floor (Python `math.floor`); Euclidean division equals the
floor because the denominator is positive. -/
def Frac.floor (a : Frac) : Int := a.num / a.den

/-- Python `int(x)` on a float: truncation toward zero. -/
def pyint (q : Frac) : Int :=
  if q < 0 then -(Frac.floor ⟨-q.num, q.den⟩) else q.floor

/-- Rounding to the nearest integer with ties to even, the rule used by
Python's float formatting.  (A float value is never exactly at a one- or
two-decimal tie, so the tie rule is unobservable on real inputs.) -/
def pyRound (q : Frac) : Int :=
  let f := q.floor
  let r : Frac := q - intF f
  if r < (⟨1, 2⟩ : Frac) then f
  else if (⟨1, 2⟩ : Frac) < r then f + 1
  else if f % 2 = 0 then f else f + 1

/-- Python's fallible float division: raises (here `Except.error`) on a zero
denominator.  For a fraction with positive denominator, `b == 0.0` is
exactly `b.num = 0`. -/
def pydiv (a b : Frac) : Except Unit Frac :=
  if b.num = 0 then .error () else .ok (a / b)

/-! ## Decimal rendering helpers (Python `str`/format of numbers) -/

/-- Digits of `n`, most significant first; `fuel`-indexed so that the
definition is structurally recursive and kernel-reducible. -/
def natDigitsAux : Nat → Nat → List Char
  | 0, _ => []
  | fuel + 1, n =>
    if n < 10 then [Nat.digitChar n]
    else natDigitsAux fuel (n / 10) ++ [Nat.digitChar (n % 10)]

/-- Decimal rendering of a natural number, as Python `str(n)` produces it. -/
def natRepr (n : Nat) : String :=
  String.mk (natDigitsAux (n + 1) n)

/-- Decimal rendering of an integer, as Python `str(i)` produces it. -/
def intRepr (i : Int) : String :=
  if i < 0 then "-" ++ natRepr (-i).toNat else natRepr i.toNat

/-- `n` spaces. -/
def spaces (n : Nat) : String :=
  String.mk (List.replicate n ' ')

/-- Right-justify `s` in a field of width `w` (Python `f"{s:>w}"` /
the minimum-width behaviour of `f"{x:wd}"`). -/
def padLeft (w : Nat) (s : String) : String :=
  spaces (w - s.length) ++ s

/-- Python `f"{q:.1f}"` for `q ≥ 0` (one decimal, round half even). -/
def fmt1fNN (q : Frac) : String :=
  let m := (pyRound ((⟨10, 1⟩ : Frac) * q)).toNat
  natRepr (m / 10) ++ "." ++ natRepr (m % 10)

/-- Python `f"{q:.1f}"`: sign, then the magnitude with one decimal. -/
def fmt1f (q : Frac) : String :=
  if q < 0 then "-" ++ fmt1fNN ⟨-q.num, q.den⟩ else fmt1fNN q

/-- Python `f"{q:.2f}"` for `q ≥ 0` (two decimals, round half even). -/
def fmt2fNN (q : Frac) : String :=
  let m := (pyRound ((⟨100, 1⟩ : Frac) * q)).toNat
  natRepr (m / 100) ++ "." ++ (if m % 100 < 10 then "0" else "") ++ natRepr (m % 100)

/-- Python `f"{q:.2f}"`. -/
def fmt2f (q : Frac) : String :=
  if q < 0 then "-" ++ fmt2fNN ⟨-q.num, q.den⟩ else fmt2fNN q

/-! ## formatting.py -/

/-- `format_y_axis_value` (formatting.py lines 11-33): format a Y-axis value
to (intendedly) 5 characters with K/M units.
`f"{int(v):3d} M"`, `f" {int(v):2d} M"`, `f"{v:3.1f} M"` and the K variants
are rendered with `padLeft`/`fmt1f`; the final branch is `f"{int(value):5d}"`. -/
def format_y_axis_value (value : Frac) : String :=
  if value ≥ 1000000 then
    let val_m := value / 1000000
    if val_m ≥ 100 then padLeft 3 (intRepr (pyint val_m)) ++ " M"
    else if val_m ≥ 10 then " " ++ padLeft 2 (intRepr (pyint val_m)) ++ " M"
    else padLeft 3 (fmt1f val_m) ++ " M"
  else if value ≥ 1000 then
    let val_k := value / 1000
    if val_k ≥ 100 then padLeft 3 (intRepr (pyint val_k)) ++ " K"
    else if val_k ≥ 10 then " " ++ padLeft 2 (intRepr (pyint val_k)) ++ " K"
    else padLeft 3 (fmt1f val_k) ++ " K"
  else padLeft 5 (intRepr (pyint value))

/-- `format_total_value` (formatting.py lines 36-67): variable-width
formatting with B/M/K units. -/
def format_total_value (value : ℕ) : String :=
  let q : Frac := natF value
  if q ≥ 1000000000 then
    let val_b := q / 1000000000
    if val_b ≥ 100 then intRepr (pyint val_b) ++ "B"
    else if val_b ≥ 10 then fmt1f val_b ++ "B"
    else fmt2f val_b ++ "B"
  else if q ≥ 1000000 then
    let val_m := q / 1000000
    if val_m ≥ 100 then intRepr (pyint val_m) ++ "M"
    else if val_m ≥ 10 then fmt1f val_m ++ "M"
    else fmt2f val_m ++ "M"
  else if q ≥ 1000 then
    let val_k := q / 1000
    if val_k ≥ 100 then intRepr (pyint val_k) ++ "K"
    else if val_k ≥ 10 then fmt1f val_k ++ "K"
    else fmt2f val_k ++ "K"
  else intRepr (pyint q)

example : format_y_axis_value (natF 999) = "  999" := by decide
example : format_y_axis_value (natF 12345) = " 12 K" := by decide
example : format_y_axis_value (natF 5500) = "5.5 K" := by decide
example : format_y_axis_value (natF 1000000000) = "1000 M" := by decide
example : format_y_axis_value (natF 9960) = "10.0 K" := by decide
example : format_total_value 1234567 = "1.23M" := by decide
example : format_total_value 12345 = "12.3K" := by decide
example : format_total_value 999 = "999" := by decide

/-! ## charts.py — data model and pipeline (print_stacked_bar_chart) -/

/-- One value of the input mapping: the four token counters of a bucket.
Missing categories default to zero at aggregation time (`.get(key, 0)`),
so a fixed-shape record of naturals is the exact input shape. -/
structure Bd where
  input : ℕ
  output : ℕ
  cache_creation : ℕ
  cache_read : ℕ
deriving DecidableEq

/-- The all-zero breakdown (used for gap filling). -/
def bdZero : Bd := ⟨0, 0, 0, 0⟩

/-- The caller-selected chart type: `'all' | 'io' | 'cache'`. -/
inductive ChartType where
  | all | io | cache
deriving DecidableEq

/-- The input `time_series` mapping, as an association list
timestamp ↦ breakdown (a Python dict has distinct keys; lookups take the
first hit, so theorems do not depend on key uniqueness). -/
abbrev TimeSeries := List (Int × Bd)

/-- `sorted(time_series.keys())` — insertion sort is a stable ascending
sort, hence extensionally identical to Python `sorted` on integer keys. -/
def sortedKeys (ts : TimeSeries) : List Int :=
  List.insertionSort (· ≤ ·) (ts.map Prod.fst)

/-- `last_time = all_sorted_times[-1]` (charts.py line 29). -/
def lastTime (ts : TimeSeries) : Int :=
  (sortedKeys ts).getLastD 0

/-- The hourly while-loop of charts.py lines 37-41: every hour from `s`
to `l` inclusive (empty when `l < s`). -/
def hourRange (s l : Int) : List Int :=
  (List.range (l + 1 - s).toNat).map (fun (k : ℕ) => s + (k : Int))

/-- The dense axis `sorted_times` before downsampling (charts.py
lines 29-41): starts at `last_time - timedelta(days=days_back)` rounded
down to the hour (the identity at hour granularity) and steps hourly up to
`last_time`. -/
def denseAxis (ts : TimeSeries) (days_back : ℕ) : List Int :=
  hourRange (lastTime ts - 24 * days_back) (lastTime ts)

/-- Python slicing `l[::n]` (keep indices `0, n, 2n, ...`), written with a
countdown so the recursion is structural.  `k` is the distance to the next
kept element; the initial call uses `k = 0`. -/
def sliceGo (n : ℕ) : List α → ℕ → List α
  | [], _ => []
  | x :: rest, k =>
    if k = 0 then x :: sliceGo n rest (n - 1) else sliceGo n rest (k - 1)

/-- Python `l[::n]`. -/
def sliceStep (l : List α) (n : ℕ) : List α := sliceGo n l 0

/-- The series actually charted (charts.py lines 47-55): the dense axis,
downsampled by `step = max(1, len(sorted_times) // 500)` when it exceeds
500 columns. -/
def chartTimes (ts : TimeSeries) (days_back : ℕ) : List Int :=
  let st := denseAxis ts days_back
  if 500 < st.length then sliceStep st (max 1 (st.length / 500)) else st

/-- `time_series[time]` with zero-filling for gaps (charts.py lines 61-67):
`if time in time_series` then the stored breakdown (each field already
defaulted by `.get(cat, 0)`), else all zeros. -/
def lookupBd (ts : TimeSeries) (t : Int) : Bd :=
  match ts.find? (fun p => p.1 = t) with
  | some p => p.2
  | none => bdZero

/-- `breakdown_data` (charts.py lines 58-74). -/
def breakdownData (ts : TimeSeries) (days_back : ℕ) : List Bd :=
  (chartTimes ts days_back).map (lookupBd ts)

/-- The per-bucket scalar total selected by the chart type
(charts.py lines 76-84). -/
def activeTotal (ct : ChartType) (b : Bd) : ℕ :=
  match ct with
  | .io => b.input + b.output
  | .cache => b.cache_creation + b.cache_read
  | .all => b.input + b.output + b.cache_creation + b.cache_read

/-- `totals` (charts.py lines 59-84). -/
def totalsList (ts : TimeSeries) (days_back : ℕ) (ct : ChartType) : List ℕ :=
  (breakdownData ts days_back).map (activeTotal ct)

/-- Python `max(l)` for a nonempty list, with the source's `if totals else 1`
default folded in at the call site. -/
def pyMaxD (l : List ℕ) (dflt : ℕ) : ℕ :=
  match l with
  | [] => dflt
  | x :: xs => xs.foldl max x

/-- Python `min(l)` with a default for the empty list. -/
def pyMinD (l : List ℕ) (dflt : ℕ) : ℕ :=
  match l with
  | [] => dflt
  | x :: xs => xs.foldl min x

/-- `round_to_5_multiple` (charts.py lines 91-109): round to the nearest
multiple of the magnitude-appropriate unit, up or down. -/
def round_to_5_multiple (value : ℕ) (round_up : Bool) : ℕ :=
  let unit :=
    if value ≥ 5000000000 then 5000000000
    else if value ≥ 5000000 then 5000000
    else if value ≥ 5000 then 5000
    else 5
  if round_up then ((value + unit - 1) / unit) * unit
  else (value / unit) * unit

/-- `min_value` (charts.py lines 87-111). -/
def minValue (totals : List ℕ) : ℕ :=
  round_to_5_multiple (pyMinD totals 0) false

/-- `max_value` after the widening of charts.py lines 112-116
(`if max_value == min_value: max_value = min_value + 5_000`). -/
def maxValue (totals : List ℕ) : ℕ :=
  let m := round_to_5_multiple (pyMaxD totals 1) true
  if m = minValue totals then minValue totals + 5000 else m

/-- A scaled (integer row-height) breakdown. -/
structure SBd where
  input : Int
  output : Int
  cache_creation : Int
  cache_read : Int
deriving DecidableEq

/-- The all-zero scaled breakdown. -/
def sbdZero : SBd := ⟨0, 0, 0, 0⟩

/-- Scaling of one breakdown (charts.py lines 139-155):
`int((value - 0) / (max_value - min_value) * (chart_height - 1))` per
category, all zeros when `max_value == min_value`. -/
def scaleBd (minv maxv height : ℕ) (b : Bd) : SBd :=
  if maxv = minv then sbdZero
  else
    let m : Frac := intF ((maxv : Int) - (minv : Int))
    let h : Frac := intF ((height : Int) - 1)
    ⟨pyint ((natF b.input - 0) / m * h),
     pyint ((natF b.output - 0) / m * h),
     pyint ((natF b.cache_creation - 0) / m * h),
     pyint ((natF b.cache_read - 0) / m * h)⟩

/-- `scaled_breakdown` (charts.py lines 139-155). -/
def scaledBreakdown (ts : TimeSeries) (days_back : ℕ) (ct : ChartType) (height : ℕ) : List SBd :=
  (breakdownData ts days_back).map
    (scaleBd (minValue (totalsList ts days_back ct)) (maxValue (totalsList ts days_back ct)) height)

/-- A chart column: a day separator or a reference to data point `i`. -/
inductive ChartCol where
  | sep : ChartCol
  | data : ℕ → ChartCol
deriving DecidableEq

/-- `chart_columns` (charts.py lines 160-175): walk the data points in
order; before a point whose hour is 0 (minutes are always 0 at hour
granularity) that is not the first point, insert a separator. -/
def chartColumns (times : List Int) : List ChartCol :=
  (List.range times.length).flatMap (fun i =>
    (if 0 < i ∧ times.getD i 0 % 24 = 0 then [ChartCol.sep] else []) ++ [ChartCol.data i])

/-- Number of separator columns of a column list. -/
def sepCount (cols : List ChartCol) : ℕ :=
  cols.countP (fun c => decide (c = ChartCol.sep))

/-- `data_to_col` (charts.py lines 161-175): the column index of data point
`i`, i.e. the position of `ChartCol.data i` in the column list. -/
def dataToCol (cols : List ChartCol) (i : ℕ) : ℕ :=
  cols.findIdx (fun c => decide (c = ChartCol.data i))

/-- One `daily_totals` entry: midpoint column, summed total, day start. -/
structure DayTotal where
  mid : ℕ
  total : ℕ
  start : Int

/-- The `daily_totals` accumulation loop (charts.py lines 181-205).
State: current column index, `current_day_start` (`none` = Python `None`),
`current_day_total`, `current_day_start_col`, accumulated list. -/
def dtGo (times : List Int) (totals : List ℕ) :
    List ChartCol → ℕ → Option Int → ℕ → ℕ → List DayTotal → List DayTotal
  | [], colIdx, cds, dayTot, cdsCol, acc =>
    (match cds with
     | none => acc
     | some t => acc ++ [(⟨(cdsCol + colIdx) / 2, dayTot, t⟩ : DayTotal)])
  | c :: rest, colIdx, cds, dayTot, cdsCol, acc =>
    match c with
    | .sep =>
      let acc' :=
        match cds with
        | none => acc
        | some t => acc ++ [(⟨(cdsCol + colIdx) / 2, dayTot, t⟩ : DayTotal)]
      dtGo times totals rest (colIdx + 1) none 0 (colIdx + 1) acc'
    | .data i =>
      match cds with
      | none =>
        dtGo times totals rest (colIdx + 1) (some (times.getD i 0))
          (dayTot + totals.getD i 0) colIdx acc
      | some t =>
        dtGo times totals rest (colIdx + 1) (some t)
          (dayTot + totals.getD i 0) cdsCol acc

/-- `daily_totals` (charts.py lines 181-205). -/
def dailyTotals (ts : TimeSeries) (days_back : ℕ) (ct : ChartType) : List DayTotal :=
  dtGo (chartTimes ts days_back) (totalsList ts days_back ct)
    (chartColumns (chartTimes ts days_back)) 0 none 0 0 []

/-- The string a data cell appends to the current row (charts.py
lines 269-315), ANSI escapes included, chosen by the cumulative stack
boundaries of the column and the chart type. -/
def cellStr (ct : ChartType) (sb : SBd) (row : Int) : String :=
  let cumulative_input := sb.input
  let cumulative_output := cumulative_input + sb.output
  let cumulative_cache_creation := cumulative_output + sb.cache_creation
  let cumulative_cache_read := cumulative_cache_creation + sb.cache_read
  match ct with
  | .io =>
    if row < cumulative_input then "\x1b[38;5;51m█\x1b[0m"
    else if row < cumulative_output then "\x1b[38;5;46m▓\x1b[0m"
    else " "
  | .cache =>
    let cache_only_cumulative_creation := sb.cache_creation
    let cache_only_cumulative_read := cache_only_cumulative_creation + sb.cache_read
    if row < cache_only_cumulative_creation then "\x1b[38;5;214m▒\x1b[0m"
    else if row < cache_only_cumulative_read then "█"
    else " "
  | .all =>
    if row < cumulative_input then "\x1b[38;5;51m█\x1b[0m"
    else if row < cumulative_output then "\x1b[38;5;46m▓\x1b[0m"
    else if row < cumulative_cache_creation then "\x1b[38;5;214m▒\x1b[0m"
    else if row < cumulative_cache_read then "█░"
    else " "

/-- Drop the remainder of an ANSI escape: everything up to and including
the terminating `m`. -/
def skipToM : List Char → List Char
  | [] => []
  | c :: rest => if c = 'm' then rest else skipToM rest

theorem skipToM_length_le (l : List Char) : (skipToM l).length ≤ l.length := by
  induction l with
  | nil => simp [skipToM]
  | cons c rest ih =>
    simp only [skipToM]
    split
    · simp
    · exact Nat.le_succ_of_le ih

/-- Remove ANSI color escape sequences (`ESC [ ... m`), leaving the visible
glyphs; fuel-indexed (the input length suffices) so the definition is
structurally recursive and kernel-reducible. -/
def stripAnsiAux : ℕ → List Char → List Char
  | 0, _ => []
  | _ + 1, [] => []
  | fuel + 1, c :: rest =>
    if c = '\x1b' then stripAnsiAux fuel (skipToM rest) else c :: stripAnsiAux fuel rest

/-- Remove ANSI color escape sequences, leaving the visible glyphs. -/
def stripAnsi (l : List Char) : List Char := stripAnsiAux l.length l

/-! ## charts.py — calendar helpers (Python datetime/strftime at hour grain) -/

/-- Weekday of the calendar day containing hour-timestamp `t`
(Python `datetime.weekday()`: Monday = 0; epoch day 0 = 1970-01-01 was a
Thursday, weekday 3). -/
def weekdayOf (t : Int) : ℕ := ((t / 24 + 3) % 7).toNat

/-- `weekday_abbr` (charts.py line 212). -/
def weekdayAbbrList : List String := ["Mon", "Tue", "Wed", "Thu", "Fri", "Sat", "Sun"]

/-- Civil date (year, month, day) of a day number counted from 1970-01-01
(Howard Hinnant's `civil_from_days`, exact integer arithmetic; all
divisions have positive divisors, so Euclidean `=` floor `=` the C
truncation on the nonnegative shifted values). -/
def civilFromDays (z0 : Int) : Int × ℕ × ℕ :=
  let z := z0 + 719468
  let era := z / 146097
  let doe := z - era * 146097
  let yoe := (doe - doe / 1460 + doe / 36524 - doe / 146096) / 365
  let y := yoe + era * 400
  let doy := doe - (365 * yoe + yoe / 4 - yoe / 100)
  let mp := (5 * doy + 2) / 153
  let d := doy - (153 * mp + 2) / 5 + 1
  let m := if mp < 10 then mp + 3 else mp - 9
  (if m ≤ 2 then y + 1 else y, m.toNat, d.toNat)

/-- Two-digit zero-padded field (`%m`, `%d`, `%H`). -/
def pad2 (n : ℕ) : String := if n < 10 then "0" ++ natRepr n else natRepr n

/-- `day_start.strftime(' %m / %d')` (charts.py line 220). -/
def fmtMD (t : Int) : String :=
  let c := civilFromDays (t / 24)
  " " ++ pad2 c.2.1 ++ " / " ++ pad2 c.2.2

/-- `time.strftime('%H')` (charts.py line 343). -/
def fmtH (t : Int) : String := pad2 (t % 24).toNat

/-- `strftime('%Y-%m-%d %H:%M')` (charts.py line 373); minutes are always
zero at hour granularity. -/
def fmtFull (t : Int) : String :=
  let c := civilFromDays (t / 24)
  intRepr c.1 ++ "-" ++ pad2 c.2.1 ++ "-" ++ pad2 c.2.2 ++ " " ++ pad2 (t % 24).toNat ++ ":00"

/-! ## charts.py — line assembly -/

/-- Python `s.index(c)` (the sought characters `':'` and `'/'` are always
present in the strings this is applied to). -/
def strIndex (c : Char) (s : String) : ℕ := s.data.findIdx (fun x => x = c)

/-- One step of the day-header layout loop (charts.py lines 214-252):
align `:` and `/`, left-justify to a common width, position both strings
so the alignment column lands on the day's midpoint column. -/
def headerStep (st : String × String × Int) (dt : DayTotal) : String × String × Int :=
  let total_str := format_total_value dt.total
  let weekday := weekdayAbbrList.getD (weekdayOf dt.start) ""
  let wt0 := weekday ++ " : " ++ total_str
  let ds0 := fmtMD dt.start
  let colon_idx0 := strIndex ':' wt0
  let slash_idx0 := strIndex '/' ds0
  let wt1 := if colon_idx0 < slash_idx0 then spaces (slash_idx0 - colon_idx0) ++ wt0 else wt0
  let ds1 := if slash_idx0 < colon_idx0 then spaces (colon_idx0 - slash_idx0) ++ ds0 else ds0
  let align_idx := max colon_idx0 slash_idx0
  let max_len := max wt1.length ds1.length
  let wt := wt1 ++ spaces (max_len - wt1.length)
  let ds := ds1 ++ spaces (max_len - ds1.length)
  let start_pos : Int := (dt.mid : Int) - align_idx
  let padding : Int := start_pos - st.2.2
  let wl := if 0 < padding then st.1 ++ spaces padding.toNat else st.1
  let dl := if 0 < padding then st.2.1 ++ spaces padding.toNat else st.2.1
  (wl ++ wt, dl ++ ds, start_pos + max_len)

/-- `weekday_line` and `date_line` (charts.py lines 207-252), both starting
with 7 alignment spaces and `prev_end = 0`. -/
def headerLines (dts : List DayTotal) : String × String × Int :=
  dts.foldl headerStep (spaces 7, spaces 7, 0)

/-- One body row of the chart (charts.py lines 258-317) for row index
`row`: the Y-axis label from `min_value + (max_value - min_value) * row /
(chart_height - 1)` (a fallible float division: `chart_height = 1` divides
by zero), then one cell per column. -/
def rowLine (cols : List ChartCol) (sbs : List SBd) (ct : ChartType)
    (minv maxv height : ℕ) (row : ℕ) : Except Unit String := do
  let q ← pydiv (intF (((maxv : Int) - (minv : Int)) * (row : Int))) (intF ((height : Int) - 1))
  let y_val := natF minv + q
  let y_label := format_y_axis_value y_val ++ " |"
  let line := cols.foldl (fun acc c =>
    match c with
    | .sep => acc ++ "|"
    | .data i => acc ++ cellStr ct (sbs.getD i sbdZero) (row : Int)) ""
  pure (y_label ++ line)

/-- The X-axis rule (charts.py lines 321-327). -/
def xAxisLine (cols : List ChartCol) : String :=
  "      └" ++ cols.foldl (fun acc c =>
    match c with
    | .sep => acc ++ "┴"
    | .data _ => acc ++ "─") ""

/-- `labels` and `positions` (charts.py lines 335-344): the `%H` string and
column index of every data point whose hour is 6, 12 or 18 (every data
index is a key of `data_to_col`, so the membership test always passes). -/
def hourLabels (times : List Int) (cols : List ChartCol) : List String × List ℕ :=
  let pairs := (List.range times.length).filterMap (fun i =>
    let t := times.getD i 0
    if t % 24 = 6 ∨ t % 24 = 12 ∨ t % 24 = 18 then some (fmtH t, dataToCol cols i)
    else none)
  (pairs.map Prod.fst, pairs.map Prod.snd)

/-- The vertical hour-label lines (charts.py lines 346-368): one output
line per label character position; under a separator a `|`, under a data
column the first matching label's character (or a blank). -/
def labelBlockLines (times : List Int) (cols : List ChartCol) : List String :=
  let lp := hourLabels times cols
  let max_label_len := pyMaxD (lp.1.map String.length) 0
  (List.range max_label_len).map (fun char_idx =>
    (List.range cols.length).foldl (fun acc colIdx =>
      match cols.getD colIdx (ChartCol.data 0) with
      | .sep => acc ++ "|"
      | .data _ =>
        match (lp.2.zip lp.1).find? (fun pl => pl.1 = colIdx ∧ char_idx < pl.2.length) with
        | some pl => acc ++ String.mk [pl.2.data.getD char_idx ' ']
        | none => acc ++ " ") "       ")

/-- The legend line (charts.py line 374). -/
def legendLine : String :=
  "Legend: \x1b[38;5;51m█\x1b[0m Input  \x1b[38;5;46m▓\x1b[0m Output  █ Cache Input  \x1b[38;5;214m▒\x1b[0m Cache Output"

/-- The trailing summary block (charts.py lines 371-374). -/
def summaryLines (times : List Int) (width : ℕ) : List String :=
  ["\n" ++ String.mk (List.replicate (width + 10) '='),
   "Total time span: " ++ fmtFull (times.getD 0 0) ++ " to " ++ fmtFull (times.getLastD 0)
     ++ " | Data points: " ++ natRepr times.length,
   legendLine]

/-- The two title lines (charts.py lines 121-130). -/
def titleLines (ct : ChartType) : List String :=
  match ct with
  | .io => ["\nInput + Output Tokens Over Time (1-hour intervals, Local Time)",
            "Y-axis: Input and Output token consumption"]
  | .cache => ["\nCache Tokens Over Time (1-hour intervals, Local Time)",
               "Y-axis: Cache Output and Cache Input token consumption"]
  | .all => ["\nToken Usage Breakdown Over Time (1-hour intervals, Local Time)",
             "Y-axis: Token consumption (all token types)"]

/-- All lines printed on the main path of `print_stacked_bar_chart`, in
print order, once the early-return guards have passed. -/
def renderMain (ts : TimeSeries) (height days_back : ℕ) (ct : ChartType)
    (show_x_axis : Bool) : Except Unit (List String) :=
  let axis := denseAxis ts days_back
  let noteLines :=
    if 500 < axis.length then
      ["Note: Adjusting interval to ~" ++ fmt1f (natF axis.length / 500)
        ++ " hours to fit in 500 columns."]
    else []
  let times := chartTimes ts days_back
  let totals := totalsList ts days_back ct
  let minv := minValue totals
  let maxv := maxValue totals
  let sbs := scaledBreakdown ts days_back ct height
  let cols := chartColumns times
  let width := cols.length
  let hdr := headerLines (dtGo times totals cols 0 none 0 0 [])
  do
    let rows ← (List.range height).reverse.mapM (rowLine cols sbs ct minv maxv height)
    .ok (noteLines ++ titleLines ct ++
      [if show_x_axis then "X-axis: Time (each day has 24 data points, ticks at 6-hour intervals)\n"
       else ""] ++
      [String.mk (List.replicate (width + 10) '=')] ++
      [hdr.1, hdr.2.1] ++ rows ++
      [xAxisLine cols] ++
      (if show_x_axis then "" :: labelBlockLines times cols else []) ++
      (if show_x_axis then summaryLines times width else []))

/-- `print_stacked_bar_chart` (charts.py lines 7-374) as the sequence of
printed lines; `Except.error` models an uncaught Python exception. -/
def render (ts : TimeSeries) (height days_back : ℕ) (ct : ChartType)
    (show_x_axis : Bool) : Except Unit (List String) :=
  if ts = [] then .ok ["No time series data available."]
  else if sortedKeys ts = [] then .ok ["No data available."]
  else if (denseAxis ts days_back).length < 2 then .ok ["Not enough data points for chart."]
  else renderMain ts height days_back ct show_x_axis

/-! ## String and digit length lemmas -/

theorem length_mk_list (l : List Char) : (String.mk l).length = l.length := rfl

theorem length_spaces (n : ℕ) : (spaces n).length = n := by
  simp [spaces, length_mk_list]

theorem length_padLeft (w : ℕ) (s : String) : (padLeft w s).length = max w s.length := by
  simp [padLeft, String.length_append, length_spaces]
  omega

theorem natDigitsAux_len1 (fuel n : ℕ) (hf : 0 < fuel) (h : n < 10) :
    (natDigitsAux fuel n).length = 1 := by
  match fuel with
  | f + 1 => simp [natDigitsAux, h]

theorem natDigitsAux_len2 (fuel n : ℕ) (hf : 1 < fuel) (h1 : 10 ≤ n) (h2 : n < 100) :
    (natDigitsAux fuel n).length = 2 := by
  match fuel with
  | f + 1 =>
    have : ¬ n < 10 := by omega
    simp only [natDigitsAux, this, if_false, List.length_append, List.length_cons,
      List.length_nil]
    have : (natDigitsAux f (n / 10)).length = 1 :=
      natDigitsAux_len1 f (n / 10) (by omega) (by omega)
    omega

theorem natDigitsAux_len3 (fuel n : ℕ) (hf : 2 < fuel) (h1 : 100 ≤ n) (h2 : n < 1000) :
    (natDigitsAux fuel n).length = 3 := by
  match fuel with
  | f + 1 =>
    have : ¬ n < 10 := by omega
    simp only [natDigitsAux, this, if_false, List.length_append, List.length_cons,
      List.length_nil]
    have : (natDigitsAux f (n / 10)).length = 2 :=
      natDigitsAux_len2 f (n / 10) (by omega) (by omega) (by omega)
    omega

theorem natRepr_length_one (n : ℕ) (h : n < 10) : (natRepr n).length = 1 := by
  simpa [natRepr, length_mk_list] using natDigitsAux_len1 (n + 1) n (by omega) h

theorem natRepr_length_two (n : ℕ) (h1 : 10 ≤ n) (h2 : n < 100) : (natRepr n).length = 2 := by
  simpa [natRepr, length_mk_list] using natDigitsAux_len2 (n + 1) n (by omega) h1 h2

theorem natRepr_length_three (n : ℕ) (h1 : 100 ≤ n) (h2 : n < 1000) :
    (natRepr n).length = 3 := by
  simpa [natRepr, length_mk_list] using natDigitsAux_len3 (n + 1) n (by omega) h1 h2

theorem natRepr_length_le_three (n : ℕ) (h : n < 1000) : (natRepr n).length ≤ 3 := by
  rcases Nat.lt_or_ge n 10 with h1 | h1
  · rw [natRepr_length_one n h1]; omega
  rcases Nat.lt_or_ge n 100 with h2 | h2
  · rw [natRepr_length_two n h1 h2]; omega
  · rw [natRepr_length_three n h2 h]

/-! ## Frac order and rounding lemmas -/

theorem Frac.lt_def (a b : Frac) : (a < b) = (a.num * b.den < b.num * a.den) := rfl

theorem Frac.le_def (a b : Frac) : (a ≤ b) = (a.num * b.den ≤ b.num * a.den) := rfl

theorem frac_lit_num (n : ℕ) : (OfNat.ofNat n : Frac).num = (n : Int) := rfl

theorem frac_lit_den (n : ℕ) : (OfNat.ofNat n : Frac).den = 1 := rfl

theorem natF_num (n : ℕ) : (natF n).num = (n : Int) := rfl

theorem natF_den (n : ℕ) : (natF n).den = 1 := rfl

theorem intF_num (i : Int) : (intF i).num = i := rfl

theorem intF_den (i : Int) : (intF i).den = 1 := rfl

theorem Frac.sub_num (a b : Frac) : (a - b).num = a.num * b.den - b.num * a.den := rfl

theorem Frac.sub_den (a b : Frac) : (a - b).den = a.den * b.den := rfl

theorem Frac.add_num (a b : Frac) : (a + b).num = a.num * b.den + b.num * a.den := rfl

theorem Frac.add_den (a b : Frac) : (a + b).den = a.den * b.den := rfl

theorem Frac.mul_num (a b : Frac) : (a * b).num = a.num * b.num := rfl

theorem Frac.mul_den (a b : Frac) : (a * b).den = a.den * b.den := rfl

theorem not_frac_lt_zero (q : Frac) (hn : 0 ≤ q.num) : ¬ (q < 0) := by
  rw [Frac.lt_def, frac_lit_num, frac_lit_den]
  simp only [Nat.cast_zero, mul_one, zero_mul, not_lt]
  exact hn

theorem pyint_nonneg (q : Frac) (hn : 0 ≤ q.num) : pyint q = q.num / q.den := by
  unfold pyint
  rw [if_neg (not_frac_lt_zero q hn)]
  rfl

theorem pyint_lb (q : Frac) (hd : 0 < q.den) (hn : 0 ≤ q.num) (k : Int)
    (h : k * q.den ≤ q.num) : k ≤ pyint q := by
  rw [pyint_nonneg q hn]
  exact (Int.le_ediv_iff_mul_le hd).mpr h

theorem pyint_ub (q : Frac) (hd : 0 < q.den) (hn : 0 ≤ q.num) (k : Int)
    (h : q.num < k * q.den) : pyint q < k := by
  rw [pyint_nonneg q hn]
  exact (Int.ediv_lt_iff_lt_mul hd).mpr (by linarith)

theorem pyRound_cases (q : Frac) :
    pyRound q = q.num / q.den ∨ pyRound q = q.num / q.den + 1 := by
  simp only [pyRound]
  split
  · exact Or.inl rfl
  split
  · exact Or.inr rfl
  split
  · exact Or.inl rfl
  · exact Or.inr rfl

theorem pyRound_ge (q : Frac) (hd : 0 < q.den) (k : Int) (h : k * q.den ≤ q.num) :
    k ≤ pyRound q := by
  have hfl : k ≤ q.num / q.den := (Int.le_ediv_iff_mul_le hd).mpr h
  rcases pyRound_cases q with h' | h' <;> omega

theorem pyRound_le (q : Frac) (hd : 0 < q.den) (k : Int)
    (h : 2 * q.num < (2 * k + 1) * q.den) : pyRound q ≤ k := by
  have hdm := Int.ediv_add_emod q.num q.den
  have hr0 : 0 ≤ q.num % q.den := Int.emod_nonneg q.num (by omega)
  have hr1 : q.num % q.den < q.den := Int.emod_lt_of_pos q.num hd
  have hflk : q.num / q.den ≤ k := by
    by_contra hc
    push_neg at hc
    have h1 : (k + 1) * q.den ≤ q.num / q.den * q.den :=
      mul_le_mul_of_nonneg_right (by omega) (by omega)
    nlinarith [h1, hdm, hr0]
  simp only [pyRound]
  split
  · exact hflk
  case isFalse h1 =>
  rcases eq_or_lt_of_le hflk with he | hl
  · -- the floor is exactly k and the fraction is strictly below k + 1/2,
    -- so the first branch must have been taken: derive a contradiction
    exfalso
    apply h1
    rw [Frac.lt_def]
    show (q.num * 1 - Frac.floor q * q.den) * 2 < 1 * (q.den * 1)
    have he2 : Frac.floor q = k := he
    rw [he2]
    clear h1
    linarith [h]
  · split
    · show q.num / q.den + 1 ≤ k
      omega
    split
    · show q.num / q.den ≤ k
      omega
    · show q.num / q.den + 1 ≤ k
      omega


/-! ## Width of format_y_axis_value -/

theorem frac_div_lit (a : Frac) (n : ℕ) :
    a / (OfNat.ofNat n : Frac) = ⟨a.num, a.den * (n : Int)⟩ := by
  show Frac.div a (OfNat.ofNat n) = _
  unfold Frac.div
  have hnn : (0 : ℤ) ≤ (OfNat.ofNat n : Frac).num := by
    rw [frac_lit_num]; exact Int.natCast_nonneg n
  rw [if_pos hnn]
  show (⟨a.num * 1, a.den * (n : Int)⟩ : Frac) = _
  rw [mul_one]

theorem lit_le_elim {n : ℕ} {v : Frac} (h : v ≥ (OfNat.ofNat n : Frac)) :
    (n : Int) * v.den ≤ v.num := by
  rw [ge_iff_le, Frac.le_def, frac_lit_num, frac_lit_den] at h
  linarith [h]

theorem not_lit_le_elim {n : ℕ} {v : Frac} (h : ¬ v ≥ (OfNat.ofNat n : Frac)) :
    v.num < (n : Int) * v.den := by
  rw [ge_iff_le, Frac.le_def, frac_lit_num, frac_lit_den] at h
  push_neg at h
  linarith [h]

theorem lit_lt_elim {n : ℕ} {v : Frac} (h : v < (OfNat.ofNat n : Frac)) :
    v.num < (n : Int) * v.den := by
  rw [Frac.lt_def, frac_lit_num, frac_lit_den] at h
  linarith [h]

theorem lit_lt_intro {n : ℕ} {v : Frac} (h : v.num < (n : Int) * v.den) :
    v < (OfNat.ofNat n : Frac) := by
  rw [Frac.lt_def, frac_lit_num, frac_lit_den]
  linarith [h]

theorem lit_le_intro {n : ℕ} {v : Frac} (h : (n : Int) * v.den ≤ v.num) :
    (OfNat.ofNat n : Frac) ≤ v := by
  rw [Frac.le_def, frac_lit_num, frac_lit_den]
  linarith [h]

theorem intRepr_nonneg (i : Int) (h : 0 ≤ i) : intRepr i = natRepr i.toNat := by
  unfold intRepr
  rw [if_neg (by omega)]

/-- Length of the integer field `f"{int(q):wd}"` when the truncated value
has `k` digits. -/
theorem length_intRepr_three {i : Int} (h1 : 100 ≤ i) (h2 : i < 1000) :
    (intRepr i).length = 3 := by
  rw [intRepr_nonneg i (by omega)]
  exact natRepr_length_three i.toNat (by omega) (by omega)

theorem length_intRepr_two {i : Int} (h1 : 10 ≤ i) (h2 : i < 100) :
    (intRepr i).length = 2 := by
  rw [intRepr_nonneg i (by omega)]
  exact natRepr_length_two i.toNat (by omega) (by omega)

/-- The `f"{q:3.1f}"` field has exactly 3 characters when the rounded value
`d.d` keeps a one-digit integer part, i.e. when `1 ≤ q` and `q < 9.95`. -/
theorem length_fmt1fNN {q : Frac} (hd : 0 < q.den) (hlb : q.den ≤ q.num)
    (hub : 20 * q.num < 199 * q.den) : (fmt1fNN q).length = 3 := by
  unfold fmt1fNN
  have hm10 : (10 : Int) ≤ pyRound ((⟨10, 1⟩ : Frac) * q) := by
    apply pyRound_ge _ (by simpa [Frac.mul_den] using hd)
    show 10 * ((1 : Int) * q.den) ≤ 10 * q.num
    nlinarith [hlb]
  have hm99 : pyRound ((⟨10, 1⟩ : Frac) * q) ≤ 99 := by
    apply pyRound_le _ (by simpa [Frac.mul_den] using hd)
    show 2 * ((10 : Int) * q.num) < (2 * 99 + 1) * (1 * q.den)
    nlinarith [hub]
  simp only [String.length_append]
  rw [natRepr_length_one _ (by omega), natRepr_length_one _ (by omega)]
  rfl

/-- C8 (amended core): for a value with positive denominator, nonnegative
and below `10^9`, avoiding the two bands `[9950, 10000)` and
`[9950000, 10^7)` where the one-decimal field rounds up to `10.0`,
`format_y_axis_value` yields exactly 5 characters. -/
theorem format_y_axis_width (v : Frac) (hd : 0 < v.den) (hn : 0 ≤ v.num)
    (hub : v < (1000000000 : Frac))
    (hx1 : ¬ ((9950 : Frac) ≤ v ∧ v < (10000 : Frac)))
    (hx2 : ¬ ((9950000 : Frac) ≤ v ∧ v < (10000000 : Frac))) :
    (format_y_axis_value v).length = 5 := by
  have hubN : v.num < 1000000000 * v.den := by
    have := lit_lt_elim hub
    push_cast at this
    omega
  simp only [format_y_axis_value]
  split_ifs with h1 h2 h3 h4 h5 h6
  · -- ≥ 1e6, val_m ≥ 100: three integer digits plus " M"
    rw [frac_div_lit] at h2 ⊢
    push_cast at h2 ⊢
    have hge := lit_le_elim h2
    dsimp only at hge
    push_cast at hge
    have hlb : (100 : ℤ) ≤ pyint ⟨v.num, v.den * 1000000⟩ :=
      pyint_lb _ (by dsimp only; omega) (by exact hn) _ (by dsimp only; omega)
    have hub2 : pyint ⟨v.num, v.den * 1000000⟩ < 1000 :=
      pyint_ub _ (by dsimp only; omega) (by exact hn) _ (by dsimp only; omega)
    rw [String.length_append, length_padLeft, length_intRepr_three hlb hub2]
    rfl
  · -- ≥ 1e6, 10 ≤ val_m < 100
    rw [frac_div_lit] at h2 h3 ⊢
    push_cast at h2 h3 ⊢
    have hge := lit_le_elim h3
    have hlt := not_lit_le_elim h2
    dsimp only at hge hlt
    push_cast at hge hlt
    have hlb : (10 : ℤ) ≤ pyint ⟨v.num, v.den * 1000000⟩ :=
      pyint_lb _ (by dsimp only; omega) (by exact hn) _ (by dsimp only; omega)
    have hub2 : pyint ⟨v.num, v.den * 1000000⟩ < 100 :=
      pyint_ub _ (by dsimp only; omega) (by exact hn) _ (by dsimp only; omega)
    rw [String.length_append, String.length_append, length_padLeft,
      length_intRepr_two hlb hub2]
    rfl
  · -- ≥ 1e6, val_m < 10: the "d.d M" field
    rw [frac_div_lit] at h3 ⊢
    push_cast at h3 ⊢
    have hge := lit_le_elim h1
    have hlt := not_lit_le_elim h3
    dsimp only at hge hlt
    push_cast at hge hlt
    have hband : v.num < 9950000 * v.den := by
      by_contra hc
      push_neg at hc
      refine hx2 ⟨lit_le_intro (by push_cast; omega), lit_lt_intro (by push_cast; omega)⟩
    rw [fmt1f, if_neg (not_frac_lt_zero _ (by exact hn))]
    rw [String.length_append, length_padLeft, length_fmt1fNN]
    · rfl
    · dsimp only; omega
    · dsimp only; omega
    · dsimp only; omega
  · -- 1000 ≤ v < 1e6, val_k ≥ 100
    rw [frac_div_lit] at h5 ⊢
    push_cast at h5 ⊢
    have hge := lit_le_elim h5
    have hlt := not_lit_le_elim h1
    dsimp only at hge hlt
    push_cast at hge hlt
    have hlb : (100 : ℤ) ≤ pyint ⟨v.num, v.den * 1000⟩ :=
      pyint_lb _ (by dsimp only; omega) (by exact hn) _ (by dsimp only; omega)
    have hub2 : pyint ⟨v.num, v.den * 1000⟩ < 1000 :=
      pyint_ub _ (by dsimp only; omega) (by exact hn) _ (by dsimp only; omega)
    rw [String.length_append, length_padLeft, length_intRepr_three hlb hub2]
    rfl
  · -- 1000 ≤ v, 10 ≤ val_k < 100
    rw [frac_div_lit] at h5 h6 ⊢
    push_cast at h5 h6 ⊢
    have hge := lit_le_elim h6
    have hlt := not_lit_le_elim h5
    dsimp only at hge hlt
    push_cast at hge hlt
    have hlb : (10 : ℤ) ≤ pyint ⟨v.num, v.den * 1000⟩ :=
      pyint_lb _ (by dsimp only; omega) (by exact hn) _ (by dsimp only; omega)
    have hub2 : pyint ⟨v.num, v.den * 1000⟩ < 100 :=
      pyint_ub _ (by dsimp only; omega) (by exact hn) _ (by dsimp only; omega)
    rw [String.length_append, String.length_append, length_padLeft,
      length_intRepr_two hlb hub2]
    rfl
  · -- 1000 ≤ v, val_k < 10: the "d.d K" field
    rw [frac_div_lit] at h6 ⊢
    push_cast at h6 ⊢
    have hge := lit_le_elim h4
    have hlt := not_lit_le_elim h6
    dsimp only at hge hlt
    push_cast at hge hlt
    have hband : v.num < 9950 * v.den := by
      by_contra hc
      push_neg at hc
      refine hx1 ⟨lit_le_intro (by push_cast; omega), lit_lt_intro (by push_cast; omega)⟩
    rw [fmt1f, if_neg (not_frac_lt_zero _ (by exact hn))]
    rw [String.length_append, length_padLeft, length_fmt1fNN]
    · rfl
    · dsimp only; omega
    · dsimp only; omega
    · dsimp only; omega
  · -- v < 1000: the plain right-justified integer
    have hlt := not_lit_le_elim h4
    push_cast at hlt
    have hub2 : pyint v < 1000 := pyint_ub _ hd hn _ (by omega)
    have hlb : (0 : ℤ) ≤ pyint v := pyint_lb _ hd hn _ (by omega)
    rw [length_padLeft, intRepr_nonneg _ hlb]
    have := natRepr_length_le_three (pyint v).toNat (by omega)
    omega

/-! ## Scale range lemmas -/

theorem round_down_le (v : ℕ) : round_to_5_multiple v false ≤ v := by
  unfold round_to_5_multiple
  simp only [Bool.false_eq_true, if_false]
  split_ifs <;> omega

theorem le_round_up (v : ℕ) : v ≤ round_to_5_multiple v true := by
  unfold round_to_5_multiple
  simp only [if_true]
  split_ifs <;> omega

theorem foldl_min_le_init (xs : List ℕ) (x : ℕ) : xs.foldl min x ≤ x := by
  induction xs generalizing x with
  | nil => exact le_refl x
  | cons y ys ih => exact le_trans (ih (min x y)) (min_le_left x y)

theorem init_le_foldl_max (xs : List ℕ) (x : ℕ) : x ≤ xs.foldl max x := by
  induction xs generalizing x with
  | nil => exact le_refl x
  | cons y ys ih => exact le_trans (le_max_left x y) (ih (max x y))

theorem mem_le_foldl_max (xs : List ℕ) (x t : ℕ) (h : t ∈ xs) : t ≤ xs.foldl max x := by
  induction xs generalizing x with
  | nil => cases h
  | cons y ys ih =>
    rcases List.mem_cons.mp h with rfl | hm
    · exact le_trans (le_max_right x t) (init_le_foldl_max ys (max x t))
    · exact ih (max x y) hm

theorem pyMinD_le_pyMaxD (l : List ℕ) : pyMinD l 0 ≤ pyMaxD l 1 := by
  match l with
  | [] => exact Nat.zero_le 1
  | x :: xs =>
    exact le_trans (foldl_min_le_init xs x) (init_le_foldl_max xs x)

theorem mem_le_pyMaxD (l : List ℕ) (d t : ℕ) (h : t ∈ l) : t ≤ pyMaxD l d := by
  match l with
  | [] => cases h
  | x :: xs =>
    rcases List.mem_cons.mp h with rfl | hm
    · exact init_le_foldl_max xs t
    · exact mem_le_foldl_max xs x t hm

theorem minValue_lt_maxValue (totals : List ℕ) : minValue totals < maxValue totals := by
  have h1 : minValue totals ≤ round_to_5_multiple (pyMaxD totals 1) true :=
    le_trans (round_down_le _) (le_trans (pyMinD_le_pyMaxD totals) (le_round_up _))
  simp only [maxValue]
  split_ifs with he
  · omega
  · omega

theorem le_maxValue (totals : List ℕ) (t : ℕ) (h : t ∈ totals) : t ≤ maxValue totals := by
  have h1 : t ≤ round_to_5_multiple (pyMaxD totals 1) true :=
    le_trans (mem_le_pyMaxD totals 1 t h) (le_round_up _)
  simp only [maxValue]
  split_ifs with he
  · omega
  · exact h1

/-! ## Stacked bands -/

/-- The cumulative stack boundaries of the categories visible for a chart
type (charts.py lines 279-282, and 296-297 for the cache-only from-zero
stack), in the fixed stacking order input → output → cache_creation →
cache_read. -/
def activeBounds : ChartType → SBd → List Int
  | .io, sb => [sb.input, sb.input + sb.output]
  | .cache, sb => [sb.cache_creation, sb.cache_creation + sb.cache_read]
  | .all, sb => [sb.input, sb.input + sb.output,
      sb.input + sb.output + sb.cache_creation,
      sb.input + sb.output + sb.cache_creation + sb.cache_read]

/-- Total stacked height of the visible categories: the last cumulative
boundary, i.e. the sum of the active scaled heights. -/
def activeStackHeight (ct : ChartType) (sb : SBd) : Int :=
  (activeBounds ct sb).getLastD 0

/-- Row `row` falls in band `k` of the boundary list `bs`: every boundary
before `k` is at most `row`, and `row` is below boundary `k` when `k`
indexes a real category; `k = bs.length` is the blank region above the
stack.  This is what the glyph chain of charts.py lines 284-315 selects. -/
def inBand (bs : List Int) (k : ℕ) (row : Int) : Prop :=
  k ≤ bs.length ∧ (∀ j, j < k → bs.getD j 0 ≤ row) ∧ (k < bs.length → row < bs.getD k 0)

theorem inBand_exists (bs : List Int) (row : Int) : ∃ k, inBand bs k row := by
  induction bs with
  | nil =>
    exact ⟨0, Nat.le_refl 0, fun j hj => absurd hj (Nat.not_lt_zero j), fun h => absurd h (by simp)⟩
  | cons b rest ih =>
    by_cases hb : row < b
    · refine ⟨0, Nat.zero_le _, fun j hj => absurd hj (Nat.not_lt_zero j), fun _ => ?_⟩
      simpa using hb
    · obtain ⟨k, hk1, hk2, hk3⟩ := ih
      refine ⟨k + 1, by simpa using hk1, ?_, ?_⟩
      · intro j hj
        match j with
        | 0 => simpa using le_of_not_lt hb
        | j' + 1 =>
          have : j' < k := by omega
          simpa using hk2 j' this
      · intro hlt
        have : k < rest.length := by simpa using hlt
        simpa using hk3 this

theorem inBand_unique (bs : List Int) (row : Int) (k k' : ℕ)
    (h : inBand bs k row) (h' : inBand bs k' row) : k = k' := by
  obtain ⟨hk1, hk2, hk3⟩ := h
  obtain ⟨hk1', hk2', hk3'⟩ := h'
  rcases lt_trichotomy k k' with hlt | heq | hgt
  · exfalso
    have h1 : row < bs.getD k 0 := hk3 (by omega)
    have h2 : bs.getD k 0 ≤ row := hk2' k hlt
    omega
  · exact heq
  · exfalso
    have h1 : row < bs.getD k' 0 := hk3' (by omega)
    have h2 : bs.getD k' 0 ≤ row := hk2 k' hgt
    omega

theorem inBand_existsUnique (bs : List Int) (row : Int) : ∃! k, inBand bs k row := by
  obtain ⟨k, hk⟩ := inBand_exists bs row
  exact ⟨k, hk, fun k' hk' => inBand_unique bs row k' k hk' hk⟩

/-! ## Scaled heights -/

theorem Frac.mk_eq {a b : Frac} (h1 : a.num = b.num) (h2 : a.den = b.den) : a = b := by
  cases a; cases b; simp_all

theorem frac_div_posden (a b : Frac) (h : 0 ≤ b.num) :
    a / b = ⟨a.num * b.den, a.den * b.num⟩ := by
  show Frac.div a b = _
  unfold Frac.div
  rw [if_pos h]

/-- The scaled height of one category value, as an integer expression:
`int((v - 0) / (max - min) * (H - 1)) = (v * (H - 1)) // (max - min)`
whenever the scale span is positive and `H ≥ 1`. -/
theorem scale_term_eq (M Hm1 : Int) (hM : 0 < M) (hH : 0 ≤ Hm1) (v : ℕ) :
    pyint ((natF v - 0) / intF M * intF Hm1) = ((v : Int) * Hm1) / M := by
  have e1 : ((natF v - 0) : Frac) = ⟨(v : Int), 1⟩ := by
    apply Frac.mk_eq
    · rw [Frac.sub_num, natF_num, natF_den, frac_lit_num, frac_lit_den]
      push_cast
      ring
    · rw [Frac.sub_den, natF_den, frac_lit_den]
      ring
  rw [e1]
  have e2 : ((⟨(v : Int), 1⟩ : Frac) / intF M) = ⟨(v : Int), M⟩ := by
    rw [frac_div_posden _ _ (by rw [intF_num]; omega)]
    apply Frac.mk_eq
    · rw [intF_den]; ring
    · rw [intF_num]; ring
  rw [e2]
  have e3 : ((⟨(v : Int), M⟩ : Frac) * intF Hm1) = ⟨(v : Int) * Hm1, M⟩ := by
    apply Frac.mk_eq
    · rw [Frac.mul_num, intF_num]
    · rw [Frac.mul_den, intF_den]; ring
  rw [e3]
  rw [pyint_nonneg _ (by exact mul_nonneg (Int.natCast_nonneg v) hH)]

theorem ediv_add_ediv_le (a b M : Int) (hM : 0 < M) : a / M + b / M ≤ (a + b) / M := by
  rw [Int.le_ediv_iff_mul_le hM]
  have h1 : a / M * M ≤ a := Int.ediv_mul_le a (by omega)
  have h2 : b / M * M ≤ b := Int.ediv_mul_le b (by omega)
  nlinarith [h1, h2]

theorem ediv_le_of_le (T M Hm1 : Int) (hM : 0 < M) (hT : T ≤ M) (hH : 0 ≤ Hm1) :
    (T * Hm1) / M ≤ Hm1 := by
  have h1 : T * Hm1 ≤ M * Hm1 := mul_le_mul_of_nonneg_right hT hH
  calc (T * Hm1) / M ≤ (M * Hm1) / M := Int.ediv_le_ediv hM h1
    _ = Hm1 := Int.mul_ediv_cancel_left Hm1 (by omega)

theorem getD_map_lt {α β : Type} (f : α → β) (l : List α) (j : ℕ) (d : α) (d' : β)
    (h : j < l.length) : (l.map f).getD j d' = f (l.getD j d) := by
  rw [List.getD_eq_getElem _ _ (by simpa using h), List.getD_eq_getElem _ _ h,
    List.getElem_map]

theorem getD_mem {α : Type} (l : List α) (j : ℕ) (d : α) (h : j < l.length) :
    l.getD j d ∈ l := by
  rw [List.getD_eq_getElem _ _ h]
  exact List.getElem_mem h

/-- The `j`-th scaled breakdown, written through `scale_term_eq`: each field
is `(value * (H - 1)) // max_value` when the scale minimum is zero. -/
theorem scaledBreakdown_getD (ts : TimeSeries) (d : ℕ) (ct : ChartType) (H : ℕ) (j : ℕ)
    (hH : 1 ≤ H) (hmin : minValue (totalsList ts d ct) = 0)
    (hj : j < (breakdownData ts d).length) :
    (scaledBreakdown ts d ct H).getD j sbdZero =
      ⟨((breakdownData ts d).getD j bdZero).input * ((H : Int) - 1) /
          (maxValue (totalsList ts d ct) : Int),
       ((breakdownData ts d).getD j bdZero).output * ((H : Int) - 1) /
          (maxValue (totalsList ts d ct) : Int),
       ((breakdownData ts d).getD j bdZero).cache_creation * ((H : Int) - 1) /
          (maxValue (totalsList ts d ct) : Int),
       ((breakdownData ts d).getD j bdZero).cache_read * ((H : Int) - 1) /
          (maxValue (totalsList ts d ct) : Int)⟩ := by
  have hlt : minValue (totalsList ts d ct) < maxValue (totalsList ts d ct) :=
    minValue_lt_maxValue _
  have hmaxpos : 0 < maxValue (totalsList ts d ct) := by omega
  unfold scaledBreakdown
  rw [getD_map_lt _ _ j bdZero _ hj]
  unfold scaleBd
  rw [if_neg (by omega)]
  have hM : ((maxValue (totalsList ts d ct) : Int) - (minValue (totalsList ts d ct) : Int))
      = (maxValue (totalsList ts d ct) : Int) := by
    rw [hmin]
    push_cast
    ring
  rw [hM]
  have hMpos : (0 : Int) < (maxValue (totalsList ts d ct) : Int) := by exact_mod_cast hmaxpos
  have hHm1 : (0 : Int) ≤ (H : Int) - 1 := by
    have : (1 : Int) ≤ (H : Int) := by exact_mod_cast hH
    omega
  dsimp only
  rw [scale_term_eq _ _ hMpos hHm1, scale_term_eq _ _ hMpos hHm1,
    scale_term_eq _ _ hMpos hHm1, scale_term_eq _ _ hMpos hHm1]

theorem sum2_div_le (a b M Hm1 : Int) (hM : 0 < M) (hH : 0 ≤ Hm1) (hab : a + b ≤ M) :
    a * Hm1 / M + b * Hm1 / M ≤ Hm1 := by
  have h1 := ediv_add_ediv_le (a * Hm1) (b * Hm1) M hM
  have h2 : a * Hm1 + b * Hm1 = (a + b) * Hm1 := by ring
  have h3 := ediv_le_of_le (a + b) M Hm1 hM hab hH
  rw [h2] at h1
  linarith [h1, h3]

theorem sum4_div_le (a b c e M Hm1 : Int) (hM : 0 < M) (hH : 0 ≤ Hm1)
    (hab : a + b + c + e ≤ M) :
    a * Hm1 / M + b * Hm1 / M + c * Hm1 / M + e * Hm1 / M ≤ Hm1 := by
  have h1 := ediv_add_ediv_le (a * Hm1) (b * Hm1) M hM
  have h2 := ediv_add_ediv_le (a * Hm1 + b * Hm1) (c * Hm1) M hM
  have h3 := ediv_add_ediv_le (a * Hm1 + b * Hm1 + c * Hm1) (e * Hm1) M hM
  have h4 : a * Hm1 + b * Hm1 + c * Hm1 + e * Hm1 = (a + b + c + e) * Hm1 := by ring
  rw [h4] at h3
  have h5 := ediv_le_of_le (a + b + c + e) M Hm1 hM hab hH
  linarith [h1, h2, h3, h5]

/-- C1 (amended): whenever the computed scale minimum is 0 (which is the
case whenever some charted column has an active total below 5), the sum of
the active categories' scaled heights of any data column — each height
`floor((value - 0) / (max - min) * (H - 1))` — is at most `H - 1`, with no
extra rounding slack needed; and every row of the column falls in exactly
one band of the column's cumulative stack boundaries (one visible category
band or the blank region above the stack). -/
theorem c1_stack_sum_and_bands (ts : TimeSeries) (d : ℕ) (ct : ChartType) (H j : ℕ)
    (hH : 1 ≤ H) (hmin : minValue (totalsList ts d ct) = 0)
    (hj : j < (scaledBreakdown ts d ct H).length) :
    activeStackHeight ct ((scaledBreakdown ts d ct H).getD j sbdZero) ≤ (H : Int) - 1 ∧
    ∀ row : Int,
      ∃! k, inBand (activeBounds ct ((scaledBreakdown ts d ct H).getD j sbdZero)) k row := by
  refine ⟨?_, fun row => inBand_existsUnique _ row⟩
  have hjB : j < (breakdownData ts d).length := by
    simpa [scaledBreakdown] using hj
  have hjT : j < (totalsList ts d ct).length := by
    simpa [totalsList] using hjB
  have htj : (totalsList ts d ct).getD j 0 =
      activeTotal ct ((breakdownData ts d).getD j bdZero) := by
    unfold totalsList
    exact getD_map_lt _ _ j bdZero _ hjB
  have hmax := le_maxValue _ _ (getD_mem (totalsList ts d ct) j 0 hjT)
  rw [htj] at hmax
  have hlt : minValue (totalsList ts d ct) < maxValue (totalsList ts d ct) :=
    minValue_lt_maxValue _
  have hMpos : (0 : Int) < (maxValue (totalsList ts d ct) : Int) := by
    exact_mod_cast by omega
  have hHm1 : (0 : Int) ≤ (H : Int) - 1 := by
    have : (1 : Int) ≤ (H : Int) := by exact_mod_cast hH
    omega
  rw [scaledBreakdown_getD ts d ct H j hH hmin hjB]
  set bd := (breakdownData ts d).getD j bdZero with hbd
  cases ct with
  | io =>
    show (bd.input : Int) * ((H : Int) - 1) / (maxValue (totalsList ts d .io) : Int) +
        (bd.output : Int) * ((H : Int) - 1) / (maxValue (totalsList ts d .io) : Int) ≤
        (H : Int) - 1
    apply sum2_div_le _ _ _ _ hMpos hHm1
    have : bd.input + bd.output ≤ maxValue (totalsList ts d .io) := hmax
    exact_mod_cast this
  | cache =>
    show (bd.cache_creation : Int) * ((H : Int) - 1) / (maxValue (totalsList ts d .cache) : Int) +
        (bd.cache_read : Int) * ((H : Int) - 1) / (maxValue (totalsList ts d .cache) : Int) ≤
        (H : Int) - 1
    apply sum2_div_le _ _ _ _ hMpos hHm1
    have : bd.cache_creation + bd.cache_read ≤ maxValue (totalsList ts d .cache) := hmax
    exact_mod_cast this
  | all =>
    show (bd.input : Int) * ((H : Int) - 1) / (maxValue (totalsList ts d .all) : Int) +
        (bd.output : Int) * ((H : Int) - 1) / (maxValue (totalsList ts d .all) : Int) +
        (bd.cache_creation : Int) * ((H : Int) - 1) / (maxValue (totalsList ts d .all) : Int) +
        (bd.cache_read : Int) * ((H : Int) - 1) / (maxValue (totalsList ts d .all) : Int) ≤
        (H : Int) - 1
    apply sum4_div_le _ _ _ _ _ _ hMpos hHm1
    have : bd.input + bd.output + bd.cache_creation + bd.cache_read ≤
        maxValue (totalsList ts d .all) := hmax
    exact_mod_cast this

/-- 25 hourly buckets (one day window ending at hour 1), each with
10000 input tokens: every column total is 10000, so the scale rounds to
`min = 10000`, `max = 15000` and the span is only 5000. -/
def c1cexTs : TimeSeries :=
  (List.range 25).map (fun k => ((k : Int) - 23, (⟨10000, 0, 0, 0⟩ : Bd)))

/-- C1 counterexample: with every column total 10000 (chart `'io'`,
`H = 10`), the rounded scale is `min = 10000 < max = 15000`, and a single
column's active scaled heights sum to `floor(10000/5000 · 9) = 18`, which
exceeds `H - 1 = 9` even granting a rounding slack of one row per active
category — the claim's bound fails whenever the scale minimum is positive. -/
theorem c1_counterexample :
    (10 : Int) - 1 + 4 <
      activeStackHeight .io ((scaledBreakdown c1cexTs 1 .io 10).getD 24 sbdZero) := by
  decide

/-- Two hourly buckets (zero-filled to 25 columns), the last with 100 input
tokens: the scale minimum is 0. -/
def c1wTs : TimeSeries := [(0, bdZero), (1, (⟨100, 0, 0, 0⟩ : Bd))]

theorem c1_witness :
    1 ≤ 10 ∧ minValue (totalsList c1wTs 1 .io) = 0 ∧
    24 < (scaledBreakdown c1wTs 1 .io 10).length ∧
    (activeStackHeight .io ((scaledBreakdown c1wTs 1 .io 10).getD 24 sbdZero) ≤ (10 : Int) - 1 ∧
     ∀ row : Int,
       ∃! k, inBand (activeBounds .io ((scaledBreakdown c1wTs 1 .io 10).getD 24 sbdZero)) k row) :=
  ⟨by decide, by decide, by decide,
   c1_stack_sum_and_bands c1wTs 1 .io 10 24 (by decide) (by decide) (by decide)⟩

/-- C7: for every sequence of totals (the empty sequence defaulting to
`rawMax = 1`, `rawMin = 0`), the rounded scale satisfies `max > min`:
rounding down can only lower the minimum, rounding up can only raise the
maximum, and the widening `max = min + 5000` breaks the remaining ties. -/
theorem c7_scale_max_gt_min (totals : List ℕ) : minValue totals < maxValue totals :=
  minValue_lt_maxValue totals

/-- C8 counterexample: at `10^9` the M-tier integer field needs four
digits, so the result `"1000 M"` has 6 characters, not 5. -/
theorem c8_counterexample : (format_y_axis_value (natF 1000000000)).length ≠ 5 := by
  decide

/-- C8 (amended): `format_y_axis_value` returns exactly 5 characters for
every nonnegative finite value below `10^9` that avoids the two bands
`[9950, 10000)` and `[9950000, 10^7)` (where the one-decimal `K`/`M`
field rounds up to `"10.0"`, making 6 characters); the tiering (plain
integer below 1000, `K` with one decimal under 10 / a leading space and no
decimals for 10–99 / no decimals from 100, and the same with `M` from
one million) is the branch structure of `format_y_axis_value` itself.
At and above `10^9` the value overflows the field (see the
counterexample), so the claim's unrestricted width statement is amended
with these bounds. -/
theorem c8_format_width (v : Frac) (hd : 0 < v.den) (hn : 0 ≤ v.num)
    (hub : v < (1000000000 : Frac))
    (hx1 : ¬ ((9950 : Frac) ≤ v ∧ v < (10000 : Frac)))
    (hx2 : ¬ ((9950000 : Frac) ≤ v ∧ v < (10000000 : Frac))) :
    (format_y_axis_value v).length = 5 :=
  format_y_axis_width v hd hn hub hx1 hx2

theorem c8_witness :
    (0 < (natF 12345).den ∧ 0 ≤ (natF 12345).num) ∧
    (format_y_axis_value (natF 12345)).length = 5 :=
  ⟨⟨by decide, by decide⟩,
   c8_format_width (natF 12345) (by decide) (by decide) (by decide) (by decide) (by decide)⟩

/-- Input for the C2 failing case: one zero bucket and one bucket with 100
cache-read tokens. -/
def c2Ts : TimeSeries := [(0, bdZero), (1, (⟨0, 0, 0, 100⟩ : Bd))]

/-- C2 (failing case): in chart type `'all'`, a cell inside the cache-read
band appends the two-character string `"█░"` (charts.py line 313) — after
stripping ANSI escapes the cell contributes 2 visible characters, not one
glyph or one blank.  Here: `time_series = {0: zeros, 1: cache_read=100}`,
`days_back = 1`, `height = 10`, column of bucket 1 (data index 24), row 0. -/
theorem c2_cell_two_chars :
    (stripAnsi (cellStr .all ((scaledBreakdown c2Ts 1 .all 10).getD 24 sbdZero) 0).data).length
      = 2 := by
  decide

/-- For contrast, the neighbouring bands do emit a single visible
character: the same cell under chart type `'cache'` (cache-read band,
plain `█`). -/
theorem c2_cache_cell_one_char :
    (stripAnsi (cellStr .cache ((scaledBreakdown c2Ts 1 .cache 10).getD 24 sbdZero) 0).data).length
      = 1 := by
  decide

/-! ## Chart column structure -/

theorem countP_flatMap {α β : Type} (p : β → Bool) (f : α → List β) (l : List α) :
    (l.flatMap f).countP p = (l.map (fun a => (f a).countP p)).sum := by
  induction l with
  | nil => simp
  | cons a l ih =>
    rw [List.flatMap_cons, List.countP_append, List.map_cons, List.sum_cons, ih]

theorem sum_ite_eq_countP (l : List ℕ) (c : ℕ → Bool) :
    (l.map (fun i => if c i then 1 else 0)).sum = l.countP c := by
  induction l with
  | nil => simp
  | cons a l ih =>
    rw [List.map_cons, List.sum_cons, ih, List.countP_cons]
    split_ifs with h <;> omega

theorem chartColumns_sepCount (times : List Int) :
    sepCount (chartColumns times) =
      (List.range times.length).countP
        (fun i => decide (0 < i ∧ times.getD i 0 % 24 = 0)) := by
  unfold sepCount chartColumns
  rw [countP_flatMap]
  rw [show (fun i => List.countP (fun c => decide (c = ChartCol.sep))
      ((if 0 < i ∧ times.getD i 0 % 24 = 0 then [ChartCol.sep] else []) ++ [ChartCol.data i]))
      = (fun i => if decide (0 < i ∧ times.getD i 0 % 24 = 0) = true then 1 else 0) from ?_]
  · exact sum_ite_eq_countP _ _
  · funext i
    by_cases hc : 0 < i ∧ times.getD i 0 % 24 = 0
    · rw [if_pos hc, if_pos (decide_eq_true hc)]
      simp [List.countP_append, List.countP_cons]
    · rw [if_neg hc, if_neg (by simpa using hc)]
      simp [List.countP_cons]

theorem hourRange_length (s l : Int) : (hourRange s l).length = (l + 1 - s).toNat := by
  rw [hourRange, List.length_map, List.length_range]

theorem hourRange_getD (s l : Int) (i : ℕ) (h : i < (hourRange s l).length) :
    (hourRange s l).getD i 0 = s + i := by
  unfold hourRange at h ⊢
  rw [getD_map_lt _ _ i 0 _ (by simpa using h)]
  congr 1
  rw [List.getD_eq_getElem _ _ (by simpa using h), List.getElem_range]

set_option maxRecDepth 40000 in
/-- C3 (amended): for every non-empty input series, a 10-day trailing
window produces exactly **10** separator columns, not 9: the dense axis
spans 241 hourly points (`last - 240h … last`) and touches 11 calendar
days, and one separator precedes every day except the first.  Whatever the
hour `r` of the window start, the midnights strictly inside the axis are
the indices `i ∈ (0, 240]` with `i ≡ -start (mod 24)` — always 10 of
them. -/
theorem c3_ten_day_separators (ts : TimeSeries) (h : ts ≠ []) :
    sepCount (chartColumns (chartTimes ts 10)) = 10 := by
  have hlen : (denseAxis ts 10).length = 241 := by
    unfold denseAxis
    rw [hourRange_length]
    have he : lastTime ts + 1 - (lastTime ts - 24 * ((10 : ℕ) : Int)) = 241 := by
      push_cast
      ring
    rw [he]
    rfl
  have hct : chartTimes ts 10 = denseAxis ts 10 := by
    unfold chartTimes
    rw [if_neg (by omega)]
  rw [hct, chartColumns_sepCount, hlen]
  set st := lastTime ts - 24 * ((10 : ℕ) : Int) with hst
  have hr0 : 0 ≤ st % 24 := Int.emod_nonneg st (by norm_num)
  have hr1 : st % 24 < 24 := Int.emod_lt_of_pos st (by norm_num)
  have hcong : ∀ i ∈ List.range 241,
      (decide (0 < i ∧ (denseAxis ts 10).getD i 0 % 24 = 0) = true) ↔
      (decide (0 < i ∧ ((st % 24).toNat + i) % 24 = 0) = true) := by
    intro i hi
    have hi241 : i < 241 := List.mem_range.mp hi
    simp only [decide_eq_true_eq]
    have hlen2 : (hourRange st (lastTime ts)).length = 241 := hlen
    have hgd : (denseAxis ts 10).getD i 0 = st + i := by
      show (hourRange st (lastTime ts)).getD i 0 = st + i
      exact hourRange_getD st (lastTime ts) i (by omega)
    rw [hgd]
    constructor
    · rintro ⟨hpos, hmod⟩
      refine ⟨hpos, ?_⟩
      have h24 : (st + i) % 24 = ((st % 24) + i) % 24 := by
        conv_lhs => rw [show st + (i : Int) = st % 24 + i + 24 * (st / 24) from by
          have := Int.emod_add_ediv st 24
          linarith]
        exact Int.add_mul_emod_self_left _ _ _
      rw [h24] at hmod
      have hcast : ((st % 24).toNat + i : ℤ) % 24 = 0 := by
        rw [Int.toNat_of_nonneg hr0] at *
        push_cast
        exact hmod
      have : (((st % 24).toNat + i) % 24 : ℤ) = 0 := by
        push_cast
        exact hcast
      exact_mod_cast this
    · rintro ⟨hpos, hmod⟩
      refine ⟨hpos, ?_⟩
      have h24 : (st + i) % 24 = ((st % 24) + i) % 24 := by
        conv_lhs => rw [show st + (i : Int) = st % 24 + i + 24 * (st / 24) from by
          have := Int.emod_add_ediv st 24
          linarith]
        exact Int.add_mul_emod_self_left _ _ _
      rw [h24]
      have hcast : (((st % 24).toNat + i) % 24 : ℤ) = 0 := by exact_mod_cast hmod
      rw [Int.toNat_of_nonneg hr0] at hcast
      push_cast at hcast
      exact hcast
  rw [List.countP_congr hcong]
  have hbound : (st % 24).toNat < 24 := by omega
  set rn := (st % 24).toNat with hrn
  clear_value rn
  interval_cases rn <;> decide

set_option maxRecDepth 40000 in
/-- C3 counterexample: a singleton series charted with a 10-day window
yields 10 separator columns, not the claimed 9 (the 241-point axis touches
11 calendar days). -/
theorem c3_counterexample :
    sepCount (chartColumns (chartTimes [((0 : Int), bdZero)] 10)) ≠ 9 := by
  decide

set_option maxRecDepth 40000 in
theorem c3_witness :
    ([((0 : Int), bdZero)] : TimeSeries) ≠ [] ∧
    sepCount (chartColumns (chartTimes [((0 : Int), bdZero)] 10)) = 10 :=
  ⟨by decide, c3_ten_day_separators [((0 : Int), bdZero)] (by decide)⟩

/-! ## Downsampling (Python slicing l[::n]) -/

theorem sliceGo_length {α : Type} (n : ℕ) (hn : 1 ≤ n) :
    ∀ (l : List α) (k : ℕ), (sliceGo n l k).length = (l.length - k + n - 1) / n := by
  intro l
  induction l with
  | nil =>
    intro k
    show (0 : ℕ) = (0 - k + n - 1) / n
    rw [show 0 - k + n - 1 = n - 1 from by omega]
    exact (Nat.div_eq_of_lt (by omega)).symm
  | cons x rest ih =>
    intro k
    show (if k = 0 then x :: sliceGo n rest (n - 1) else sliceGo n rest (k - 1)).length = _
    split_ifs with hk
    · subst hk
      rw [List.length_cons, ih (n - 1), List.length_cons]
      rw [show rest.length + 1 - 0 + n - 1 = rest.length + n from by omega,
        Nat.add_div_right _ (by omega)]
      rcases le_or_lt (n - 1) rest.length with hc | hc
      · rw [show rest.length - (n - 1) + n - 1 = rest.length from by omega]
      · rw [show rest.length - (n - 1) + n - 1 = n - 1 from by omega,
          Nat.div_eq_of_lt (by omega), Nat.div_eq_of_lt (by omega)]
    · rw [ih (k - 1), List.length_cons,
        show rest.length + 1 - k + n - 1 = rest.length - (k - 1) + n - 1 from by omega]

theorem sliceGo_getD {α : Type} (n : ℕ) (hn : 1 ≤ n) (d : α) :
    ∀ (l : List α) (k i : ℕ), (sliceGo n l k).getD i d = l.getD (k + n * i) d := by
  intro l
  induction l with
  | nil => intro k i; rfl
  | cons x rest ih =>
    intro k i
    show (if k = 0 then x :: sliceGo n rest (n - 1) else sliceGo n rest (k - 1)).getD i d = _
    split_ifs with hk
    · subst hk
      match i with
      | 0 => rfl
      | i' + 1 =>
        rw [List.getD_cons_succ, ih (n - 1) i']
        rw [show (0 : ℕ) + n * (i' + 1) = (n - 1 + n * i') + 1 from by
          have hdist : n * (i' + 1) = n * i' + n := by ring
          rw [hdist]
          generalize n * i' = a
          omega]
        rw [List.getD_cons_succ]
    · rw [ih (k - 1) i]
      rw [show k + n * i = (k - 1 + n * i) + 1 from by omega, List.getD_cons_succ]

theorem sliceStep_headOpt {α : Type} (l : List α) (n : ℕ) :
    (sliceStep l n).head? = l.head? := by
  cases l with
  | nil => rfl
  | cons x rest =>
    show (if (0 : ℕ) = 0 then x :: sliceGo n rest (n - 1) else sliceGo n rest (0 - 1)).head?
      = some x
    rw [if_pos rfl]
    rfl

/-- C4 (amended): when the dense hourly axis exceeds 500 points, the
charted series is the fixed-stride subsampling with
`stride = max(1, len // 500)` keeping every stride-th element starting at
index 0 (element `i` of the result is element `stride·i` of the axis), and
its length is `⌈len / stride⌉` — which is **not** capped at 500 (it is at
most 999; e.g. 505 points give stride 1 and keep all 505 columns). -/
theorem c4_downsampling (ts : TimeSeries) (d : ℕ)
    (h500 : 500 < (denseAxis ts d).length) :
    chartTimes ts d = sliceStep (denseAxis ts d) (max 1 ((denseAxis ts d).length / 500)) ∧
    (∀ i : ℕ, (chartTimes ts d).getD i 0 =
      (denseAxis ts d).getD (max 1 ((denseAxis ts d).length / 500) * i) 0) ∧
    (chartTimes ts d).length =
      ((denseAxis ts d).length + max 1 ((denseAxis ts d).length / 500) - 1) /
        max 1 ((denseAxis ts d).length / 500) ∧
    (chartTimes ts d).length ≤ 999 := by
  have hct : chartTimes ts d = sliceStep (denseAxis ts d) (max 1 ((denseAxis ts d).length / 500)) := by
    unfold chartTimes
    rw [if_pos h500]
  set L := (denseAxis ts d).length with hL
  set n := max 1 (L / 500) with hn
  have hn1 : 1 ≤ n := le_max_left 1 _
  have hlen : (chartTimes ts d).length = (L + n - 1) / n := by
    rw [hct]
    unfold sliceStep
    rw [sliceGo_length n hn1 _ 0, hL]
    congr 1
  refine ⟨hct, ?_, hlen, ?_⟩
  · intro i
    rw [hct]
    unfold sliceStep
    rw [sliceGo_getD n hn1 0 _ 0 i, Nat.zero_add]
  · have hkey : L + n - 1 < 1000 * n := by omega
    rw [hlen]
    have h1000 : (L + n - 1) / n < 1000 :=
      (Nat.div_lt_iff_lt_mul (show 0 < n from hn1)).mpr hkey
    omega

set_option maxRecDepth 80000 in
/-- C4 counterexample: a 21-day window produces a 505-point dense axis;
`stride = max(1, 505 // 500) = 1` keeps all 505 elements, so the charted
series exceeds the claimed 500-column cap. -/
theorem c4_counterexample :
    ¬ ((chartTimes [((0 : Int), bdZero)] 21).length ≤ 500) := by
  decide

set_option maxRecDepth 80000 in
theorem c4_witness :
    500 < (denseAxis [((0 : Int), bdZero)] 21).length ∧
    (chartTimes [((0 : Int), bdZero)] 21).length ≤ 999 :=
  ⟨by decide, (c4_downsampling [((0 : Int), bdZero)] 21 (by decide)).2.2.2⟩

/-! ## Span of the charted series -/

theorem hourRange_head (s l : Int) (h : s ≤ l) : (hourRange s l).head? = some s := by
  have hlen : 0 < (hourRange s l).length := by
    rw [hourRange_length]
    omega
  rw [List.head?_eq_getElem? _, List.getElem?_eq_getElem hlen]
  have := hourRange_getD s l 0 hlen
  rw [List.getD_eq_getElem _ _ hlen] at this
  rw [this]
  norm_num

theorem hourRange_getLastD (s l : Int) (h : s ≤ l) : (hourRange s l).getLastD 0 = l := by
  have hlen : 0 < (hourRange s l).length := by
    rw [hourRange_length]
    omega
  have hidx : (hourRange s l).length - 1 < (hourRange s l).length := by omega
  rw [List.getLastD_eq_getLast?, List.getLast?_eq_getElem? _, List.getElem?_eq_getElem hidx]
  have hgd := hourRange_getD s l ((hourRange s l).length - 1) hidx
  rw [List.getD_eq_getElem _ _ hidx] at hgd
  rw [hgd]
  show s + ((hourRange s l).length - 1 : ℕ) = l
  rw [hourRange_length]
  have h1 : ((l + 1 - s).toNat - 1 : ℕ) = (l - s).toNat := by omega
  rw [h1]
  have h2 : ((l - s).toNat : ℤ) = l - s := Int.toNat_of_nonneg (by omega)
  rw [h2]
  ring

/-- C5 (amended): for every non-empty input, the charted series still
starts at the window's lower bound (index 0 survives any stride), and its
last bucket equals the latest input timestamp **provided no downsampling
occurs** (dense axis of at most 500 points).  Under stride subsampling the
last kept bucket is the largest multiple of the stride, which can fall
short of the latest timestamp (see the counterexample: 4 hours short). -/
theorem c5_span (ts : TimeSeries) (d : ℕ) (h : ts ≠ []) :
    (chartTimes ts d).head? = some (lastTime ts - 24 * (d : Int)) ∧
    ((denseAxis ts d).length ≤ 500 →
      (chartTimes ts d).getLastD 0 = lastTime ts) := by
  have hse : lastTime ts - 24 * (d : Int) ≤ lastTime ts := by
    have : (0 : Int) ≤ 24 * (d : Int) := by positivity
    omega
  constructor
  · simp only [chartTimes]
    split_ifs with hgt
    · rw [sliceStep_headOpt]
      exact hourRange_head _ _ hse
    · exact hourRange_head _ _ hse
  · intro hle
    simp only [chartTimes]
    rw [if_neg (by omega)]
    exact hourRange_getLastD _ _ hse

/-- C5 counterexample: with a single bucket at hour 0 and a 106-day window
the dense axis has 2545 points; the stride is `max(1, 2545 // 500) = 5`
and the last kept index is `5 * 508 = 2540`, so the charted series ends at
hour `-2544 + 2540 = -4`, **not** at the latest input timestamp 0. -/
theorem c5_counterexample :
    (chartTimes [((0 : Int), bdZero)] 106).getLastD 0 ≠ lastTime [((0 : Int), bdZero)] := by
  have hlast : lastTime [((0 : Int), bdZero)] = 0 := by decide
  have hax : denseAxis [((0 : Int), bdZero)] 106 = hourRange (-2544) 0 := by
    show hourRange (lastTime [((0 : Int), bdZero)] - 24 * ((106 : ℕ) : Int))
        (lastTime [((0 : Int), bdZero)]) = _
    rw [hlast]
    norm_num
  have hlen : (denseAxis [((0 : Int), bdZero)] 106).length = 2545 := by
    rw [hax, hourRange_length]
    rfl
  have hct : chartTimes [((0 : Int), bdZero)] 106 =
      sliceStep (denseAxis [((0 : Int), bdZero)] 106) 5 := by
    simp only [chartTimes]
    rw [if_pos (by omega), hlen]
    norm_num
  have hlen2 : (chartTimes [((0 : Int), bdZero)] 106).length = 509 := by
    rw [hct]
    unfold sliceStep
    rw [sliceGo_length 5 (by omega) _ 0, hlen]
  have hidx : 508 < (chartTimes [((0 : Int), bdZero)] 106).length := by
    rw [hlen2]
    norm_num
  have hval : (chartTimes [((0 : Int), bdZero)] 106).getD 508 0 = -4 := by
    rw [hct]
    unfold sliceStep
    rw [sliceGo_getD 5 (by norm_num) 0 _ 0 508, hax]
    rw [hourRange_getD (-2544) 0 (0 + 5 * 508) (by rw [hourRange_length]; norm_num)]
    norm_num
  generalize hgen : chartTimes [((0 : Int), bdZero)] 106 = ctl at hlen2 hval hidx ⊢
  have hgl : ctl.getLastD 0 = ctl.getD 508 0 := by
    rw [List.getLastD_eq_getLast?, List.getLast?_eq_getElem? _]
    have h1 : ctl.length - 1 = 508 := by rw [hlen2]
    rw [h1, List.getElem?_eq_getElem hidx, List.getD_eq_getElem _ _ hidx]
    rfl
  rw [hgl, hval, hlast]
  norm_num

theorem c5_witness :
    ([((0 : Int), bdZero)] : TimeSeries) ≠ [] ∧
    ((chartTimes [((0 : Int), bdZero)] 1).head? =
        some (lastTime [((0 : Int), bdZero)] - 24 * ((1 : ℕ) : Int)) ∧
     ((denseAxis [((0 : Int), bdZero)] 1).length ≤ 500 →
        (chartTimes [((0 : Int), bdZero)] 1).getLastD 0 = lastTime [((0 : Int), bdZero)])) :=
  ⟨by decide, c5_span [((0 : Int), bdZero)] 1 (by decide)⟩

/-! ## Shape of the column list and the daily-totals count -/

/-- The shape chartColumns always produces: a nonempty list that ends in a
data column, where every separator is immediately followed by a data
column. -/
inductive Stacked : List ChartCol → Prop where
  | single : ∀ i : ℕ, Stacked [ChartCol.data i]
  | cons_data : ∀ (i : ℕ) (cs : List ChartCol), Stacked cs → Stacked (ChartCol.data i :: cs)
  | cons_sep : ∀ (j : ℕ) (cs : List ChartCol), Stacked cs →
      cs.head? = some (ChartCol.data j) → Stacked (ChartCol.sep :: cs)

theorem sepCount_nil : sepCount [] = 0 := rfl

theorem sepCount_cons_sep (cs : List ChartCol) :
    sepCount (ChartCol.sep :: cs) = sepCount cs + 1 := by
  simp [sepCount, List.countP_cons]

theorem sepCount_cons_data (i : ℕ) (cs : List ChartCol) :
    sepCount (ChartCol.data i :: cs) = sepCount cs := by
  simp [sepCount, List.countP_cons]

theorem stacked_append_block (xs : List ChartCol) (hxs : Stacked xs) (b : List ChartCol)
    (i : ℕ) (hb : b = [ChartCol.data i] ∨ b = [ChartCol.sep, ChartCol.data i]) :
    Stacked (xs ++ b) := by
  induction hxs with
  | single i0 =>
    rcases hb with rfl | rfl
    · exact .cons_data i0 _ (.single i)
    · exact .cons_data i0 _ (.cons_sep i _ (.single i) rfl)
  | cons_data i0 cs hcs ih =>
    simp only [List.cons_append]
    exact .cons_data i0 _ ih
  | cons_sep j cs hcs hhead ih =>
    simp only [List.cons_append]
    refine .cons_sep j _ ih ?_
    cases cs with
    | nil => simp at hhead
    | cons c cs' =>
      simp only [List.cons_append, List.head?_cons] at hhead ⊢
      exact hhead

theorem stacked_sep_next (cs : List ChartCol) (h : Stacked cs) :
    ∀ k, cs.getD k (ChartCol.data 0) = ChartCol.sep →
      ∃ i, cs.getD (k + 1) (ChartCol.data 0) = ChartCol.data i := by
  induction h with
  | single i =>
    intro k hk
    exfalso
    match k with
    | 0 => simp at hk
    | k' + 1 => simp at hk
  | cons_data i cs hcs ih =>
    intro k hk
    match k with
    | 0 => simp at hk
    | k' + 1 =>
      rw [List.getD_cons_succ] at hk
      obtain ⟨j, hj⟩ := ih k' hk
      exact ⟨j, by rw [List.getD_cons_succ]; exact hj⟩
  | cons_sep j cs hcs hhead ih =>
    intro k hk
    match k with
    | 0 =>
      refine ⟨j, ?_⟩
      rw [List.getD_cons_succ]
      cases cs with
      | nil => simp at hhead
      | cons c cs' =>
        simp only [List.head?_cons, Option.some.injEq] at hhead
        simpa using hhead
    | k' + 1 =>
      rw [List.getD_cons_succ] at hk
      obtain ⟨j', hj'⟩ := ih k' hk
      exact ⟨j', by rw [List.getD_cons_succ]; exact hj'⟩

theorem stacked_chartColumns (times : List Int) (h : times ≠ []) :
    Stacked (chartColumns times) := by
  obtain ⟨m, hm⟩ : ∃ m, times.length = m + 1 := by
    cases times with
    | nil => exact absurd rfl h
    | cons x rest => exact ⟨rest.length, rfl⟩
  unfold chartColumns
  rw [hm]
  have haux : ∀ n : ℕ, 1 ≤ n →
      Stacked ((List.range n).flatMap (fun i =>
        (if 0 < i ∧ times.getD i 0 % 24 = 0 then [ChartCol.sep] else []) ++ [ChartCol.data i])) := by
    intro n hn
    induction n, hn using Nat.le_induction with
    | base =>
      have h0 : ¬ (0 < 0 ∧ times.getD 0 0 % 24 = 0) := by simp
      have hr1 : List.range 1 = [0] := rfl
      simp only [hr1, List.flatMap_cons, List.flatMap_nil, List.append_nil,
        if_neg h0, List.nil_append]
      exact .single 0
    | succ n hn ih =>
      rw [List.range_succ, List.flatMap_append, List.flatMap_cons, List.flatMap_nil,
        List.append_nil]
      by_cases hc : 0 < n ∧ times.getD n 0 % 24 = 0
      · rw [if_pos hc]
        exact stacked_append_block _ ih _ n (Or.inr rfl)
      · rw [if_neg hc, List.nil_append]
        exact stacked_append_block _ ih _ n (Or.inl rfl)
  exact haux (m + 1) (by omega)

theorem chartColumns_head (times : List Int) (h : times ≠ []) :
    (chartColumns times).head? = some (ChartCol.data 0) := by
  obtain ⟨m, hm⟩ : ∃ m, times.length = m + 1 := by
    cases times with
    | nil => exact absurd rfl h
    | cons x rest => exact ⟨rest.length, rfl⟩
  unfold chartColumns
  rw [hm, List.range_succ_eq_map, List.flatMap_cons]
  have h0 : ¬ (0 < 0 ∧ times.getD 0 0 % 24 = 0) := by simp
  rw [if_neg h0, List.nil_append, List.singleton_append, List.head?_cons]

/-- Counting lemma for the daily-totals loop: from a state with an open
day (`current_day_start = some t`), processing a well-shaped column list
appends one entry per separator plus one final entry. -/
theorem dtGo_len_some (times : List Int) (totals : List ℕ) (cs : List ChartCol)
    (hs : Stacked cs) :
    ∀ (colIdx : ℕ) (t : Int) (dayTot cdsCol : ℕ) (acc : List DayTotal),
      (dtGo times totals cs colIdx (some t) dayTot cdsCol acc).length =
        acc.length + 1 + sepCount cs := by
  induction hs with
  | single i =>
    intro colIdx t dayTot cdsCol acc
    show (acc ++ [(⟨(cdsCol + (colIdx + 1)) / 2, dayTot + totals.getD i 0, t⟩ : DayTotal)]).length =
      acc.length + 1 + sepCount [ChartCol.data i]
    rw [List.length_append]
    rw [sepCount_cons_data, sepCount_nil]
    rfl
  | cons_data i cs hcs ih =>
    intro colIdx t dayTot cdsCol acc
    show (dtGo times totals cs (colIdx + 1) (some t) (dayTot + totals.getD i 0) cdsCol acc).length
      = acc.length + 1 + sepCount (ChartCol.data i :: cs)
    rw [ih, sepCount_cons_data]
  | cons_sep j cs hcs hhead ih =>
    intro colIdx t dayTot cdsCol acc
    cases cs with
    | nil => simp at hhead
    | cons c cs' =>
      simp only [List.head?_cons, Option.some.injEq] at hhead
      subst hhead
      show (dtGo times totals cs' (colIdx + 1 + 1) (some (times.getD j 0))
          (0 + totals.getD j 0) (colIdx + 1)
          (acc ++ [(⟨(cdsCol + colIdx) / 2, dayTot, t⟩ : DayTotal)])).length =
        acc.length + 1 + sepCount (ChartCol.sep :: ChartCol.data j :: cs')
      have h2 := ih (colIdx + 1) (times.getD j 0) 0 (colIdx + 1)
        (acc ++ [(⟨(cdsCol + colIdx) / 2, dayTot, t⟩ : DayTotal)])
      have h3 : dtGo times totals (ChartCol.data j :: cs') (colIdx + 1)
          (some (times.getD j 0)) 0 (colIdx + 1)
          (acc ++ [(⟨(cdsCol + colIdx) / 2, dayTot, t⟩ : DayTotal)]) =
        dtGo times totals cs' (colIdx + 1 + 1) (some (times.getD j 0))
          (0 + totals.getD j 0) (colIdx + 1)
          (acc ++ [(⟨(cdsCol + colIdx) / 2, dayTot, t⟩ : DayTotal)]) := rfl
      rw [← h3, h2, List.length_append, sepCount_cons_sep, sepCount_cons_data]
      simp
      omega

theorem chartTimes_head (ts : TimeSeries) (d : ℕ) :
    (chartTimes ts d).head? = some (lastTime ts - 24 * (d : Int)) := by
  have hse : lastTime ts - 24 * (d : Int) ≤ lastTime ts := by
    have : (0 : Int) ≤ 24 * (d : Int) := by positivity
    omega
  simp only [chartTimes]
  split_ifs with hgt
  · rw [sliceStep_headOpt]
    exact hourRange_head _ _ hse
  · exact hourRange_head _ _ hse

theorem chartTimes_ne_nil (ts : TimeSeries) (d : ℕ) : chartTimes ts d ≠ [] := by
  intro he
  have hh := chartTimes_head ts d
  rw [he] at hh
  simp at hh

/-- C10: for every input, the constructed column sequence starts with a
data column, every separator is immediately followed by a data column (so
no two separators are adjacent), and the number of daily-total header
entries is exactly the number of separators plus one. -/
theorem c10_layout_invariants (ts : TimeSeries) (d : ℕ) (ct : ChartType) (h : ts ≠ []) :
    (chartColumns (chartTimes ts d)).head? = some (ChartCol.data 0) ∧
    (∀ k, (chartColumns (chartTimes ts d)).getD k (ChartCol.data 0) = ChartCol.sep →
      ∃ i, (chartColumns (chartTimes ts d)).getD (k + 1) (ChartCol.data 0) = ChartCol.data i) ∧
    (dailyTotals ts d ct).length = sepCount (chartColumns (chartTimes ts d)) + 1 := by
  have hne := chartTimes_ne_nil ts d
  have hstack := stacked_chartColumns _ hne
  have hhead := chartColumns_head _ hne
  refine ⟨hhead, stacked_sep_next _ hstack, ?_⟩
  unfold dailyTotals
  cases hcols : chartColumns (chartTimes ts d) with
  | nil =>
    rw [hcols] at hhead
    simp at hhead
  | cons c cs =>
    rw [hcols] at hhead hstack
    simp only [List.head?_cons, Option.some.injEq] at hhead
    subst hhead
    cases hstack with
    | single =>
      show (dtGo (chartTimes ts d) (totalsList ts d ct) [] 1
          (some ((chartTimes ts d).getD 0 0)) (0 + (totalsList ts d ct).getD 0 0) 0 []).length =
        sepCount [ChartCol.data 0] + 1
      rw [sepCount_cons_data, sepCount_nil]
      rfl
    | cons_data _ _ hcs2 =>
      show (dtGo (chartTimes ts d) (totalsList ts d ct) cs 1
          (some ((chartTimes ts d).getD 0 0)) (0 + (totalsList ts d ct).getD 0 0) 0 []).length =
        sepCount (ChartCol.data 0 :: cs) + 1
      rw [dtGo_len_some _ _ cs hcs2, sepCount_cons_data, List.length_nil]
      omega

theorem c10_witness :
    ([((0 : Int), bdZero)] : TimeSeries) ≠ [] ∧
    ((chartColumns (chartTimes [((0 : Int), bdZero)] 1)).head? = some (ChartCol.data 0) ∧
     (∀ k, (chartColumns (chartTimes [((0 : Int), bdZero)] 1)).getD k (ChartCol.data 0) =
        ChartCol.sep →
       ∃ i, (chartColumns (chartTimes [((0 : Int), bdZero)] 1)).getD (k + 1) (ChartCol.data 0) =
        ChartCol.data i) ∧
     (dailyTotals [((0 : Int), bdZero)] 1 ChartType.io).length =
       sepCount (chartColumns (chartTimes [((0 : Int), bdZero)] 1)) + 1) :=
  ⟨by decide, c10_layout_invariants [((0 : Int), bdZero)] 1 ChartType.io (by decide)⟩

/-! ## Determinism and failure modes of the full renderer -/

/-- C9: the renderer is a pure function of the series, height, window,
chart type and X-axis flag — the embedding threads no other state (no
clock, no randomness, no caches), so renders of equal inputs are
byte-identical line for line. -/
theorem c9_render_deterministic (ts1 ts2 : TimeSeries) (h1 h2 d1 d2 : ℕ)
    (ct1 ct2 : ChartType) (sx1 sx2 : Bool)
    (hts : ts1 = ts2) (hh : h1 = h2) (hd : d1 = d2) (hct : ct1 = ct2) (hsx : sx1 = sx2) :
    render ts1 h1 d1 ct1 sx1 = render ts2 h2 d2 ct2 sx2 := by
  subst hts hh hd hct hsx
  rfl

theorem c9_witness :
    ([((0 : Int), bdZero)] : TimeSeries) = [((0 : Int), bdZero)] ∧
    render [((0 : Int), bdZero)] 29 7 .io false = render [((0 : Int), bdZero)] 29 7 .io false :=
  ⟨rfl, c9_render_deterministic [((0 : Int), bdZero)] [((0 : Int), bdZero)] 29 29 7 7
    .io .io false false rfl rfl rfl rfl rfl⟩

theorem rowLine_ok (cols : List ChartCol) (sbs : List SBd) (ct : ChartType)
    (minv maxv height row : ℕ) (hh : height ≠ 1) :
    ∃ s, rowLine cols sbs ct minv maxv height row = .ok s := by
  have hne : (intF ((height : Int) - 1)).num ≠ 0 := by
    rw [intF_num]
    intro hc
    apply hh
    omega
  unfold rowLine pydiv
  rw [if_neg hne]
  exact ⟨_, rfl⟩

theorem mapM_ok_of_all {α β : Type} (f : α → Except Unit β) (l : List α)
    (h : ∀ a ∈ l, ∃ b, f a = .ok b) : ∃ bs, l.mapM f = .ok bs := by
  induction l with
  | nil => exact ⟨[], rfl⟩
  | cons a l ih =>
    obtain ⟨b, hb⟩ := h a (by simp)
    obtain ⟨bs, hbs⟩ := ih (fun x hx => h x (by simp [hx]))
    refine ⟨b :: bs, ?_⟩
    rw [List.mapM_cons, hb, hbs]
    rfl

theorem titleLines_length (ct : ChartType) : (titleLines ct).length = 2 := by
  cases ct <;> rfl

theorem renderMain_ok (ts : TimeSeries) (h d : ℕ) (ct : ChartType) (sx : Bool)
    (hh : h ≠ 1) :
    ∃ lines, renderMain ts h d ct sx = .ok lines ∧ 2 ≤ lines.length := by
  obtain ⟨rows, hrows⟩ := mapM_ok_of_all
    (rowLine (chartColumns (chartTimes ts d)) (scaledBreakdown ts d ct h) ct
      (minValue (totalsList ts d ct)) (maxValue (totalsList ts d ct)) h)
    (List.range h).reverse
    (fun r _ => rowLine_ok _ _ _ _ _ _ r hh)
  refine ⟨(if 500 < (denseAxis ts d).length then
      ["Note: Adjusting interval to ~" ++ fmt1f (natF (denseAxis ts d).length / 500)
        ++ " hours to fit in 500 columns."] else []) ++ titleLines ct ++
      [if sx then "X-axis: Time (each day has 24 data points, ticks at 6-hour intervals)\n"
       else ""] ++
      [String.mk (List.replicate ((chartColumns (chartTimes ts d)).length + 10) '=')] ++
      [(headerLines (dtGo (chartTimes ts d) (totalsList ts d ct)
          (chartColumns (chartTimes ts d)) 0 none 0 0 [])).1,
       (headerLines (dtGo (chartTimes ts d) (totalsList ts d ct)
          (chartColumns (chartTimes ts d)) 0 none 0 0 [])).2.1] ++ rows ++
      [xAxisLine (chartColumns (chartTimes ts d))] ++
      (if sx then "" :: labelBlockLines (chartTimes ts d) (chartColumns (chartTimes ts d))
       else []) ++
      (if sx then summaryLines (chartTimes ts d) (chartColumns (chartTimes ts d)).length
       else []), ?_, ?_⟩
  · simp only [renderMain]
    rw [hrows]
    rfl
  · simp only [List.length_append, titleLines_length, List.length_cons]
    omega

theorem sortedKeys_ne_nil (ts : TimeSeries) (h : ts ≠ []) : sortedKeys ts ≠ [] := by
  intro he
  apply h
  have hlen : (sortedKeys ts).length = ts.length := by
    unfold sortedKeys
    rw [List.length_insertionSort, List.length_map]
  rw [he] at hlen
  exact List.length_eq_zero.mp hlen.symm

/-- C6 (amended): for every chart height other than 1, the renderer
fails — printing a user-facing message and returning early, never
raising — exactly when the input mapping is empty or the dense hourly axis
has fewer than 2 points; for every other input it completes the render
without an exception.  (At height exactly 1 the Y-label computation
`... * row / (chart_height - 1)` divides by zero and raises; see the
counterexample.) -/
theorem c6_failure_exactly (ts : TimeSeries) (h d : ℕ) (ct : ChartType) (sx : Bool)
    (hh : h ≠ 1) :
    (∃ lines, render ts h d ct sx = .ok lines) ∧
    ((render ts h d ct sx = .ok ["No time series data available."] ∨
      render ts h d ct sx = .ok ["Not enough data points for chart."]) ↔
     (ts = [] ∨ (denseAxis ts d).length < 2)) := by
  by_cases hts : ts = []
  · subst hts
    constructor
    · exact ⟨_, rfl⟩
    · constructor
      · intro _
        exact Or.inl rfl
      · intro _
        exact Or.inl rfl
  · have hsk := sortedKeys_ne_nil ts hts
    by_cases hax : (denseAxis ts d).length < 2
    · have hr : render ts h d ct sx = .ok ["Not enough data points for chart."] := by
        unfold render
        rw [if_neg hts, if_neg hsk, if_pos hax]
      exact ⟨⟨_, hr⟩, by simp [hr, hax]⟩
    · obtain ⟨lines, hml, hlen⟩ := renderMain_ok ts h d ct sx hh
      have hr : render ts h d ct sx = renderMain ts h d ct sx := by
        unfold render
        rw [if_neg hts, if_neg hsk, if_neg hax]
      rw [hr, hml]
      refine ⟨⟨lines, rfl⟩, ?_⟩
      constructor
      · rintro (habs | habs) <;>
        · rw [Except.ok.injEq] at habs
          subst habs
          simp at hlen
      · rintro (rfl | h2)
        · exact absurd rfl hts
        · exact absurd h2 hax

/-- Truth-value of an `Except` result: `true` exactly when no exception
was raised. -/
def exceptIsOk {ε α : Type} : Except ε α → Bool
  | .ok _ => true
  | .error _ => false

/-- C6 counterexample: with sufficient data but `height = 1`, the row loop
evaluates `(max_value - min_value) * row / (chart_height - 1)` with a zero
divisor and raises — a fatal abort outside the claim's two failure kinds. -/
theorem c6_counterexample :
    exceptIsOk (render [((0 : Int), bdZero)] 1 1 .all true) = false := by
  rfl

theorem c6_witness :
    (29 : ℕ) ≠ 1 ∧
    ((∃ lines, render [((0 : Int), bdZero)] 29 1 .io true = .ok lines) ∧
     ((render [((0 : Int), bdZero)] 29 1 .io true = .ok ["No time series data available."] ∨
       render [((0 : Int), bdZero)] 29 1 .io true = .ok ["Not enough data points for chart."]) ↔
      (([((0 : Int), bdZero)] : TimeSeries) = [] ∨
        (denseAxis [((0 : Int), bdZero)] 1).length < 2))) :=
  ⟨by decide, c6_failure_exactly [((0 : Int), bdZero)] 29 1 .io true (by decide)⟩
